import Mathlib

/-!
Shallow embedding of the ancillary-data marshalling engine of
`src/twext/python/sendmsg.c` (functions `sendmsg_sendmsg`, lines 109-284,
and `sendmsg_recvmsg`, lines 286-405).

The C code manipulates `struct cmsghdr` records through the POSIX CMSG
macros.  We model the LP64 glibc rendering of those macros, which is a
concrete platform this file compiles against:

  * `sizeof (struct cmsghdr) = 16` (a `size_t cmsg_len`, an `int cmsg_level`,
    an `int cmsg_type`), little-endian field layout;
  * `CMSG_ALIGN (n) = (n + 7) & ~7`, computed in `size_t` (64-bit) arithmetic;
  * `CMSG_SPACE (n) = CMSG_ALIGN (n) + CMSG_ALIGN (sizeof (struct cmsghdr))`;
  * `CMSG_LEN (n) = CMSG_ALIGN (sizeof (struct cmsghdr)) + n`;
  * `CMSG_FIRSTHDR (m)` is `msg_control` when `msg_controllen` is at least
    `sizeof (struct cmsghdr)` and null otherwise;
  * `CMSG_NXTHDR (m, c)` returns null when `c->cmsg_len` is below
    `sizeof (struct cmsghdr)`; otherwise it advances by `CMSG_ALIGN
    (c->cmsg_len)` and returns null when either the next header or the next
    record's aligned `cmsg_len` would extend past `msg_control +
    msg_controllen`.

Buffers are lists of bytes; a memory cell holds a value modulo 256.  Machine
arithmetic on `size_t` is `Nat` arithmetic reduced modulo `2 ^ 64` exactly
where the C computation can wrap.  The `malloc` at line 199 returns memory
with unspecified contents and the code never initialises it (there is no
`memset` on the send path; the receive path does `memset` its buffer, line
340).  The send-path allocation is therefore a parameter `init` of the
encoder, adjusted to exactly the allocated length, and theorems about the
encoder quantify over it, so every possible allocation content is covered.
The Python-level failure exits of the C code (error objects built with
`PyErr_Format`) become an explicit error type; the `assert` at line 226
firing is a process abort, not a Python error, and is a separate `aborted`
outcome.

The module is CPython 2 (`Py_InitModule`, line 61) compiled with
`PY_SSIZE_T_CLEAN` (line 17).  `Py_BuildValue`'s `s#` converter then takes a
`Py_ssize_t` length; when line 376's cast of `cmsg_len - sizeof (struct
cmsghdr)` is negative, CPython replaces the count with `strlen` of the data
pointer, so the emitted payload is the NUL-terminated prefix of the bytes at
`CMSG_DATA`.
-/

namespace Sendmsg

/-- `SOCKLEN_MAX` from line 39 of the source. -/
def SOCKLEN_MAX : Nat := 0x7FFFFFFF

/-- One more than the largest `size_t` value: 64-bit `size_t` arithmetic is
`Nat` arithmetic modulo this constant. -/
def U64 : Nat := 2 ^ 64

/-- `sizeof (struct cmsghdr)` on the modelled platform. -/
def cmsghdrSize : Nat := 16

/-- `CMSG_ALIGN`: round up to an 8-byte boundary in `size_t` arithmetic. -/
def CMSG_ALIGN (n : Nat) : Nat := (n + 7) / 8 * 8 % U64

/-- `CMSG_SPACE`: bytes a record occupies in the control buffer, header,
payload and trailing alignment padding included. -/
def CMSG_SPACE (n : Nat) : Nat := (CMSG_ALIGN n + CMSG_ALIGN cmsghdrSize) % U64

/-- `CMSG_LEN`: the value stored in the `cmsg_len` field, header plus
payload, without the trailing padding. -/
def CMSG_LEN (n : Nat) : Nat := (CMSG_ALIGN cmsghdrSize + n) % U64

/-- A byte of a modelled memory buffer: out-of-range reads of the
zero-initialised allocation give 0, and a cell holds its value modulo 256. -/
def byteAt (buf : List Nat) (i : Nat) : Nat := buf.getD i 0 % 256

/-- Read `k` bytes little-endian starting at offset `o`. -/
def readLE (buf : List Nat) (o : Nat) : Nat → Nat
  | 0 => 0
  | k + 1 => byteAt buf o + 256 * readLE buf (o + 1) k

/-- Read the 64-bit `cmsg_len` field stored at offset `o`. -/
def readU64 (buf : List Nat) (o : Nat) : Nat := readLE buf o 8

/-- Read a 32-bit signed `int` (two's complement) stored at offset `o`. -/
def readI32 (buf : List Nat) (o : Nat) : Int :=
  let w := readLE buf o 4
  if w < 2 ^ 31 then (w : Int) else (w : Int) - 2 ^ 32

/-- Little-endian byte serialisation of a value into `k` bytes. -/
def natLE : Nat → Nat → List Nat
  | 0, _ => []
  | k + 1, v => v % 256 :: natLE k (v / 256)

/-- Serialise a `size_t` field. -/
def u64LE (v : Nat) : List Nat := natLE 8 v

/-- Serialise an `int` field (two's complement). -/
def i32LE (z : Int) : List Nat := natLE 4 (z % (2 ^ 32)).toNat

/-- One ancillary record as parsed from the caller's `(level, type, data)`
tuple (lines 160-171 of the source). -/
structure AncillaryRecord where
  level : Int
  type : Int
  payload : List Nat
deriving DecidableEq, Repr

/-- The Python-error exits of `sendmsg_sendmsg`'s marshalling code.
`overflowSizeT p` is the `PyErr_Format (PyExc_OverflowError, "Too much
msg_control to fit in a size_t: %zu", prev_all_data_len)` exit at lines
178-184; `overflowSocklen t` is the `"Too much msg_control to fit in a
socklen_t: %zu"` exit at lines 193-198; `overflowCmsgLen n` is the
`"CMSG_LEN(%d) > SOCKLEN_MAX"` exit at lines 244-253.  The `assert
(control_message)` at line 226 firing is not a Python error but a process
abort; it is the separate `aborted` outcome below. -/
inductive EncodeError where
  | overflowSizeT (prevSum : Nat)
  | overflowSocklen (total : Nat)
  | overflowCmsgLen (dataLen : Nat)
deriving DecidableEq, Repr

/-- The sizing pass, lines 156-185: accumulate `all_data_len +=
CMSG_SPACE (data_len)` in `size_t` arithmetic and fail if the new partial
sum is smaller than the previous one. -/
def sizePass : List AncillaryRecord → Nat → Except EncodeError Nat
  | [], acc => .ok acc
  | r :: rs, acc =>
    let next := (acc + CMSG_SPACE r.payload.length) % U64
    if next < acc then .error (.overflowSizeT acc) else sizePass rs next

/-- Overlay `data` onto `buf` starting at offset `o` (a `memcpy` into the
allocated control buffer). -/
def writeBytes (buf : List Nat) (o : Nat) (data : List Nat) : List Nat :=
  buf.take o ++ data ++ buf.drop (o + data.length)

/-- `CMSG_FIRSTHDR`, as an offset into the control buffer: offset 0 when a
full header fits in `msg_controllen`, null otherwise. -/
def CMSG_FIRSTHDR (controllen : Nat) : Option Nat :=
  if cmsghdrSize ≤ controllen then some 0 else none

/-- `CMSG_NXTHDR` (glibc), as an offset into the control buffer `buf` with
`msg_controllen = controllen`, from the record at offset `o`. -/
def CMSG_NXTHDR (buf : List Nat) (controllen o : Nat) : Option Nat :=
  if readU64 buf o < cmsghdrSize then none
  else
    let next := o + CMSG_ALIGN (readU64 buf o)
    if controllen < next + cmsghdrSize ∨
        controllen < next + CMSG_ALIGN (readU64 buf next) then none
    else some next

/-- Outcome of the fill pass, lines 217-263: the filled buffer, a Python
error (the buffer is freed first, so the error carries no bytes), or the
`assert (control_message)` at line 226 firing, which aborts the process. -/
inductive FillResult where
  | ok (buf : List Nat)
  | error (e : EncodeError)
  | aborted
deriving DecidableEq, Repr

/-- The fill pass, lines 217-263: for each record assert the cursor is
non-null (a null cursor with records left aborts), store `cmsg_level` and
`cmsg_type`, check `CMSG_LEN (data_len)` against `SOCKLEN_MAX`, store
`cmsg_len`, `memcpy` the payload behind the header, and advance the cursor
with `CMSG_NXTHDR`. -/
def fillPass (controllen : Nat) :
    List AncillaryRecord → List Nat → Option Nat → FillResult
  | [], buf, _ => .ok buf
  | _ :: _, _, none => .aborted
  | r :: rs, buf, some o =>
    let dataSize := CMSG_LEN r.payload.length
    let buf1 := writeBytes buf (o + 8) (i32LE r.level)
    let buf2 := writeBytes buf1 (o + 12) (i32LE r.type)
    if SOCKLEN_MAX < dataSize then .error (.overflowCmsgLen r.payload.length)
    else
      let buf3 := writeBytes buf2 o (u64LE dataSize)
      let buf4 := writeBytes buf3 (o + cmsghdrSize) (r.payload.map (· % 256))
      fillPass controllen rs buf4 (CMSG_NXTHDR buf4 controllen o)

/-- The `msg_control` / `msg_controllen` pair handed to the transmit
primitive: `control = none` is a null `msg_control` pointer. -/
structure MsgControl where
  control : Option (List Nat)
  controllen : Nat
deriving DecidableEq, Repr

/-- Outcome of the whole marshaller: a `msg_control` / `msg_controllen`
pair, a Python error, or the abort of the line-226 assert. -/
inductive EncodeResult where
  | ok (m : MsgControl)
  | error (e : EncodeError)
  | aborted
deriving DecidableEq, Repr

/-- The `malloc (all_data_len)` of line 199: `t` bytes whose contents the
code never initialises.  The parameter `init` chooses the contents and is
truncated or extended to exactly `t` bytes, so quantifying over `init`
ranges over every possible allocation content. -/
def mallocBuf (init : List Nat) (t : Nat) : List Nat :=
  init.take t ++ List.replicate (t - init.length) 0

/-- The whole marshaller of `sendmsg_sendmsg`, lines 149-271: sizing pass,
the `all_data_len > SOCKLEN_MAX` check, allocation (`malloc` with the
unspecified contents `init`; null `msg_control` when `all_data_len` is 0),
and the fill pass starting from `CMSG_FIRSTHDR`. -/
def encodeControl (init : List Nat) (rs : List AncillaryRecord) : EncodeResult :=
  match sizePass rs 0 with
  | .error e => .error e
  | .ok t =>
    if t ≠ 0 ∧ SOCKLEN_MAX < t then .error (.overflowSocklen t)
    else
      match fillPass t rs (mallocBuf init t) (CMSG_FIRSTHDR t) with
      | .error e => .error e
      | .aborted => .aborted
      | .ok filled => .ok ⟨if t = 0 then none else some filled, t⟩

/-- One entry of the list built by the `recvmsg` parse loop: the
`Py_BuildValue ("(iis#)", cmsg_level, cmsg_type, CMSG_DATA (cm),
(Py_ssize_t) (cmsg_len - sizeof (struct cmsghdr)))` of lines 371-376.
`paylen` is the `s#` count actually used: the unsigned 64-bit difference
when its cast to `Py_ssize_t` is non-negative, and the `strlen` CPython
substitutes for a negative count otherwise. -/
structure DecodedEntry where
  level : Int
  type : Int
  paylen : Nat
  payload : List Nat
deriving DecidableEq, Repr

/-- The body of the parse loop at one record: skip the record when
`cmsg_level` and `cmsg_type` are both zero (lines 366-369), otherwise emit
level, type and the payload at `CMSG_DATA`.  The `s#` count is the
unchecked difference `cmsg_len - sizeof (struct cmsghdr)` computed in
`size_t` and cast to `Py_ssize_t`: when the cast is non-negative (below
`2 ^ 63`) the payload is that many bytes, and when it is negative CPython
2's `s#` converter uses `strlen (CMSG_DATA)` instead, the NUL-terminated
prefix of the bytes behind the header. -/
def decodeEntryAt (buf : List Nat) (o : Nat) : List DecodedEntry :=
  let lvl := readI32 buf (o + 8)
  let ty := readI32 buf (o + 12)
  if lvl = 0 ∧ ty = 0 then []
  else
    let pl := (readU64 buf o + (U64 - cmsghdrSize)) % U64
    if pl < 2 ^ 63 then
      [⟨lvl, ty, pl, (buf.drop (o + cmsghdrSize)).take pl⟩]
    else
      let s := (buf.drop (o + cmsghdrSize)).takeWhile (fun b => b % 256 != 0)
      [⟨lvl, ty, s.length, s⟩]

/-- The `for (control_message = CMSG_FIRSTHDR (...); control_message;
control_message = CMSG_NXTHDR (...))` loop of lines 356-390, from offset
`o`.  The loop in C does not terminate when `CMSG_ALIGN (cmsg_len)` wraps
to 0 (a stored length of at least `2 ^ 64 - 7`); the fuel parameter cuts
that off, and no theorem below concerns such a buffer. -/
def decodeFrom (buf : List Nat) (controllen : Nat) : Nat → Nat → List DecodedEntry
  | _, 0 => []
  | o, fuel + 1 =>
    match CMSG_NXTHDR buf controllen o with
    | none => decodeEntryAt buf o
    | some o' => decodeEntryAt buf o ++ decodeFrom buf controllen o' fuel

/-- The whole parse of a received control buffer of `controllen` bytes. -/
def decode (buf : List Nat) (controllen : Nat) : List DecodedEntry :=
  match CMSG_FIRSTHDR controllen with
  | none => []
  | some o => decodeFrom buf controllen o (controllen + 1)

/-- Result tuple of `sendmsg_recvmsg`: `Py_BuildValue ("s#iO", iov_base,
recvmsg_result, msg_flags, ancillary)` at lines 392-397. -/
structure RecvResult where
  payload : List Nat
  flags : Int
  ancillary : List DecodedEntry
deriving DecidableEq, Repr

/-- `sendmsg_recvmsg` after the receive primitive returned: the payload
bytes and the kernel-reported `msg_flags` are passed through unchanged and
the control buffer is parsed. -/
def recvmsgDecode (payload : List Nat) (msgFlags : Int) (ctrlBuf : List Nat)
    (controllen : Nat) : RecvResult :=
  ⟨payload, msgFlags, decode ctrlBuf controllen⟩

/-- The bytes the fill pass writes for one record, followed by alignment
padding bytes `pad` up to `CMSG_SPACE`: the code never writes the padding,
so those bytes keep whatever the allocation held. -/
def recordChunkPad (r : AncillaryRecord) (pad : List Nat) : List Nat :=
  u64LE (CMSG_LEN r.payload.length) ++ i32LE r.level ++ i32LE r.type ++
    r.payload.map (· % 256) ++ pad

/-- The record image with all-zero padding: what the fill pass produces
over a zero-filled allocation. -/
def recordChunk (r : AncillaryRecord) : List Nat :=
  u64LE (CMSG_LEN r.payload.length) ++ i32LE r.level ++ i32LE r.type ++
    r.payload.map (· % 256) ++
    List.replicate (CMSG_ALIGN r.payload.length - r.payload.length) 0

/-- A buffer that is the complete, in-order concatenation of the record
images of `rs`, each padded to its `CMSG_SPACE` extent by some (arbitrary)
padding bytes: the shape of every buffer a successful fill pass yields. -/
inductive ChunksWithPads : List AncillaryRecord → List Nat → Prop where
  | nil : ChunksWithPads [] []
  | cons (r : AncillaryRecord) (pad : List Nat) (rs : List AncillaryRecord)
      (tail : List Nat) :
      pad.length = CMSG_ALIGN r.payload.length - r.payload.length →
      ChunksWithPads rs tail →
      ChunksWithPads (r :: rs) (recordChunkPad r pad ++ tail)

/-- Concatenation of the per-record byte images, in caller order. -/
def encodeChunks : List AncillaryRecord → List Nat
  | [] => []
  | r :: rs => recordChunk r ++ encodeChunks rs

/-- The exact (unwrapped) sum of the per-record `CMSG_SPACE` values. -/
def sumSpace : List AncillaryRecord → Nat
  | [] => 0
  | r :: rs => CMSG_SPACE r.payload.length + sumSpace rs

/-- The C-level representability invariant of one record: `cmsg_level` and
`cmsg_type` are 32-bit signed ints, the payload is a byte string whose
length fits a `Py_ssize_t`. -/
def ValidRecord (r : AncillaryRecord) : Prop :=
  -(2 ^ 31) ≤ r.level ∧ r.level < 2 ^ 31 ∧ -(2 ^ 31) ≤ r.type ∧ r.type < 2 ^ 31 ∧
    r.payload.length ≤ 2 ^ 63 - 1 ∧ ∀ b ∈ r.payload, b < 256

instance : DecidablePred ValidRecord := fun r => by
  unfold ValidRecord; infer_instance

/-- The entry the decoder would emit for a record (empty when the
level/type pair is the all-zero artifact the decoder skips). -/
def entryOf (r : AncillaryRecord) : List DecodedEntry :=
  if r.level = 0 ∧ r.type = 0 then []
  else [⟨r.level, r.type, r.payload.length, r.payload⟩]

/-- Characterisation of the decoder's stopping rule on an encoded buffer
truncated to `L` bytes, stated from the amended walk claim: a record at
offset `o` past the first is visited exactly when its whole
`CMSG_SPACE` extent fits below `L`. -/
def emittedFrom (L : Nat) : List AncillaryRecord → Nat → List DecodedEntry
  | [], _ => []
  | r :: rs, o =>
    if o + CMSG_SPACE r.payload.length ≤ L then
      entryOf r ++ emittedFrom L rs (o + CMSG_SPACE r.payload.length)
    else []

/-- Records visited by the decoder on an encoded buffer truncated to `L`
bytes: the first record is visited as soon as a bare header fits
(`CMSG_FIRSTHDR`), later ones only when their whole extent fits. -/
def emittedUpTo (rs : List AncillaryRecord) (L : Nat) : List DecodedEntry :=
  match rs with
  | [] => []
  | r :: rs' =>
    if cmsghdrSize ≤ L then
      entryOf r ++ emittedFrom L rs' (CMSG_SPACE r.payload.length)
    else []

/-! ### Byte-level read/write lemmas -/

theorem byteAt_cons_succ (x : Nat) (l : List Nat) (i : Nat) :
    byteAt (x :: l) (i + 1) = byteAt l i := by
  simp [byteAt, List.getD_cons_succ]

theorem byteAt_append_right (pre l : List Nat) (i : Nat) :
    byteAt (pre ++ l) (pre.length + i) = byteAt l i := by
  unfold byteAt
  rw [List.getD_append_right pre l 0 (pre.length + i) (by omega), Nat.add_sub_cancel_left]

theorem byteAt_replicate_zero (m i : Nat) :
    byteAt (List.replicate m 0) i = 0 := by
  simp [byteAt, List.getD_eq_getElem?_getD, List.getElem?_replicate]
  split <;> simp

theorem readLE_lt (buf : List Nat) (o : Nat) : ∀ k, readLE buf o k < 256 ^ k := by
  intro k
  induction k generalizing o with
  | zero => simp [readLE]
  | succ k ih =>
    have hb : byteAt buf o < 256 := Nat.mod_lt _ (by norm_num)
    have h2 := ih (o + 1)
    have h1 : 1 ≤ 256 ^ k := Nat.one_le_pow _ _ (by norm_num)
    simp only [readLE, pow_succ]
    omega

theorem readLE_cons_succ (x : Nat) (l : List Nat) (o : Nat) :
    ∀ k, readLE (x :: l) (o + 1) k = readLE l o k := by
  intro k
  induction k generalizing o with
  | zero => simp [readLE]
  | succ k ih =>
    simp only [readLE, byteAt_cons_succ]
    rw [ih (o + 1)]

theorem readLE_append_right (pre l : List Nat) (o : Nat) :
    ∀ k, readLE (pre ++ l) (pre.length + o) k = readLE l o k := by
  intro k
  induction k generalizing o with
  | zero => simp [readLE]
  | succ k ih =>
    simp only [readLE, byteAt_append_right]
    have : pre.length + o + 1 = pre.length + (o + 1) := by omega
    rw [this, ih (o + 1)]

theorem readLE_replicate_zero (m o : Nat) : ∀ k, readLE (List.replicate m 0) o k = 0 := by
  intro k
  induction k generalizing o with
  | zero => simp [readLE]
  | succ k ih => simp [readLE, byteAt_replicate_zero, ih (o + 1)]

theorem natLE_length (k : Nat) : ∀ v, (natLE k v).length = k := by
  induction k with
  | zero => intro v; simp [natLE]
  | succ k ih => intro v; simp [natLE, ih]

theorem readLE_natLE (k : Nat) : ∀ v rest, readLE (natLE k v ++ rest) 0 k = v % 256 ^ k := by
  induction k with
  | zero => intro v rest; simp [readLE, Nat.mod_one]
  | succ k ih =>
    intro v rest
    simp only [natLE, List.cons_append, readLE]
    rw [readLE_cons_succ, ih (v / 256) rest]
    have h1 : byteAt (v % 256 :: (natLE k (v / 256) ++ rest)) 0 = v % 256 := by
      simp only [byteAt, List.getD_cons_zero]
      omega
    rw [h1]
    have h2 : (256 : Nat) ^ (k + 1) = 256 * 256 ^ k := by ring
    rw [h2, Nat.mod_mul]

theorem readU64_append (pre : List Nat) (v : Nat) (rest : List Nat) (hv : v < U64) :
    readU64 (pre ++ (u64LE v ++ rest)) pre.length = v := by
  unfold readU64 u64LE
  have h0 : pre.length = pre.length + 0 := by omega
  rw [h0, readLE_append_right, readLE_natLE]
  have : (256 : Nat) ^ 8 = U64 := by norm_num [U64]
  rw [this]
  exact Nat.mod_eq_of_lt hv

theorem readU64_lt (buf : List Nat) (o : Nat) : readU64 buf o < U64 := by
  have := readLE_lt buf o 8
  unfold readU64 U64
  calc readLE buf o 8 < 256 ^ 8 := this
    _ = 2 ^ 64 := by norm_num

theorem readI32_append (pre : List Nat) (z : Int) (rest : List Nat)
    (h1 : -(2 ^ 31) ≤ z) (h2 : z < 2 ^ 31) :
    readI32 (pre ++ (i32LE z ++ rest)) pre.length = z := by
  have h0 : pre.length = pre.length + 0 := by omega
  have hz0 : (0 : Int) ≤ z % 2 ^ 32 := Int.emod_nonneg z (by norm_num)
  have hz1 : z % 2 ^ 32 < 2 ^ 32 := Int.emod_lt_of_pos z (by norm_num)
  have htn : ((z % 2 ^ 32).toNat : Int) = z % 2 ^ 32 := Int.toNat_of_nonneg hz0
  have hmod : z % 2 ^ 32 = z ∨ z % 2 ^ 32 = z + 2 ^ 32 := by omega
  unfold readI32 i32LE
  rw [h0, readLE_append_right, readLE_natLE]
  have hlt : (z % 2 ^ 32).toNat % 256 ^ 4 = (z % 2 ^ 32).toNat := by
    apply Nat.mod_eq_of_lt
    have : (256 : Nat) ^ 4 = 2 ^ 32 := by norm_num
    rw [this]
    omega
  rw [hlt]
  show (if (z % 2 ^ 32).toNat < 2 ^ 31 then ((z % 2 ^ 32).toNat : Int)
      else ((z % 2 ^ 32).toNat : Int) - 2 ^ 32) = z
  split <;> omega

theorem writeBytes_append (pre post data : List Nat) :
    writeBytes (pre ++ post) pre.length data = pre ++ data ++ post.drop data.length := by
  unfold writeBytes
  rw [List.take_left, List.drop_append]

/-! ### CMSG arithmetic -/

theorem CMSG_ALIGN_eq {n : Nat} (h : n ≤ 2 ^ 64 - 8) : CMSG_ALIGN n = (n + 7) / 8 * 8 := by
  unfold CMSG_ALIGN U64
  apply Nat.mod_eq_of_lt
  omega

theorem CMSG_ALIGN_bounds {n : Nat} (h : n ≤ 2 ^ 64 - 8) :
    n ≤ CMSG_ALIGN n ∧ CMSG_ALIGN n ≤ n + 7 := by
  rw [CMSG_ALIGN_eq h]
  omega

theorem CMSG_ALIGN_hdr : CMSG_ALIGN cmsghdrSize = 16 := by
  norm_num [CMSG_ALIGN, cmsghdrSize, U64]

theorem CMSG_LEN_eq {n : Nat} (h : n ≤ 2 ^ 63 - 1) : CMSG_LEN n = cmsghdrSize + n := by
  unfold CMSG_LEN
  rw [CMSG_ALIGN_hdr]
  unfold cmsghdrSize U64
  apply Nat.mod_eq_of_lt
  omega

theorem CMSG_LEN_lt (n : Nat) : CMSG_LEN n < U64 :=
  Nat.mod_lt _ (by norm_num [U64])

theorem CMSG_SPACE_lt (n : Nat) : CMSG_SPACE n < U64 :=
  Nat.mod_lt _ (by norm_num [U64])

theorem CMSG_SPACE_eq {n : Nat} (h : n ≤ 2 ^ 63 - 1) :
    CMSG_SPACE n = cmsghdrSize + CMSG_ALIGN n := by
  unfold CMSG_SPACE
  rw [CMSG_ALIGN_hdr, CMSG_ALIGN_eq (by omega)]
  unfold cmsghdrSize U64
  rw [Nat.add_comm]
  apply Nat.mod_eq_of_lt
  omega

theorem CMSG_SPACE_ge_hdr {n : Nat} (h : n ≤ 2 ^ 63 - 1) : cmsghdrSize ≤ CMSG_SPACE n := by
  rw [CMSG_SPACE_eq h]
  omega

theorem CMSG_LEN_le_SPACE {n : Nat} (h : n ≤ 2 ^ 63 - 1) : CMSG_LEN n ≤ CMSG_SPACE n := by
  rw [CMSG_LEN_eq h, CMSG_SPACE_eq h]
  have := (CMSG_ALIGN_bounds (n := n) (by omega)).1
  omega

theorem CMSG_ALIGN_CMSG_LEN {n : Nat} (h : n ≤ 2 ^ 63 - 1) :
    CMSG_ALIGN (CMSG_LEN n) = CMSG_SPACE n := by
  rw [CMSG_LEN_eq h, CMSG_SPACE_eq h, CMSG_ALIGN_eq (by unfold cmsghdrSize; omega),
    CMSG_ALIGN_eq (by omega)]
  unfold cmsghdrSize
  omega

theorem CMSG_ALIGN_zero : CMSG_ALIGN 0 = 0 := by
  norm_num [CMSG_ALIGN, U64]

theorem recordChunk_length {r : AncillaryRecord} (h : r.payload.length ≤ 2 ^ 63 - 1) :
    (recordChunk r).length = CMSG_SPACE r.payload.length := by
  have hal := CMSG_ALIGN_bounds (n := r.payload.length) (by omega)
  simp [recordChunk, u64LE, i32LE, natLE_length, CMSG_SPACE_eq h, cmsghdrSize]
  omega

theorem encodeChunks_append (a b : List AncillaryRecord) :
    encodeChunks (a ++ b) = encodeChunks a ++ encodeChunks b := by
  induction a with
  | nil => simp [encodeChunks]
  | cons r a ih => simp [encodeChunks, ih]

theorem sumSpace_append (a b : List AncillaryRecord) :
    sumSpace (a ++ b) = sumSpace a + sumSpace b := by
  induction a with
  | nil => simp [sumSpace]
  | cons r a ih => simp [sumSpace, ih]; omega

theorem sumSpace_nil : sumSpace [] = 0 := rfl

theorem sumSpace_cons (r : AncillaryRecord) (rs : List AncillaryRecord) :
    sumSpace (r :: rs) = CMSG_SPACE r.payload.length + sumSpace rs := rfl

theorem payload_mk (a b : Int) (l : List Nat) : (⟨a, b, l⟩ : AncillaryRecord).payload = l := rfl

theorem encodeChunks_length {rs : List AncillaryRecord}
    (h : ∀ r ∈ rs, r.payload.length ≤ 2 ^ 63 - 1) :
    (encodeChunks rs).length = sumSpace rs := by
  induction rs with
  | nil => simp [encodeChunks, sumSpace]
  | cons r rs ih =>
    simp only [encodeChunks, sumSpace, List.length_append]
    rw [recordChunk_length (h r (by simp)), ih (fun x hx => h x (by simp [hx]))]

/-! ### The sizing pass -/

theorem U64_pos : 0 < U64 := by norm_num [U64]

theorem sizePass_ok_of_lt {rs : List AncillaryRecord} :
    ∀ acc, acc + sumSpace rs < U64 → sizePass rs acc = .ok (acc + sumSpace rs) := by
  induction rs with
  | nil => intro acc h; simp [sizePass, sumSpace]
  | cons r rs ih =>
    intro acc h
    simp only [sumSpace] at h ⊢
    have hmod : (acc + CMSG_SPACE r.payload.length) % U64 = acc + CMSG_SPACE r.payload.length :=
      Nat.mod_eq_of_lt (by omega)
    simp only [sizePass, hmod]
    rw [if_neg (by omega), ih (acc + CMSG_SPACE r.payload.length) (by omega)]
    congr 1
    omega

theorem sizePass_ok_eq {rs : List AncillaryRecord} :
    ∀ {acc t}, acc < U64 → sizePass rs acc = .ok t → t = acc + sumSpace rs ∧ t < U64 := by
  induction rs with
  | nil =>
    intro acc t h1 h2
    simp only [sizePass, Except.ok.injEq] at h2
    simp only [sumSpace]
    omega
  | cons r rs ih =>
    intro acc t h1 h2
    simp only [sizePass] at h2
    have hs : CMSG_SPACE r.payload.length < U64 := CMSG_SPACE_lt _
    by_cases hw : (acc + CMSG_SPACE r.payload.length) % U64 < acc
    · rw [if_pos hw] at h2
      exact absurd h2 (by simp)
    · rw [if_neg hw] at h2
      have key : (acc + CMSG_SPACE r.payload.length) % U64 = acc + CMSG_SPACE r.payload.length ∧
          acc + CMSG_SPACE r.payload.length < U64 := by
        simp only [U64] at *
        omega
      rw [key.1] at h2
      obtain ⟨ht, hlt⟩ := ih key.2 h2
      simp only [sumSpace]
      omega

theorem sizePass_wrap {rs : List AncillaryRecord} :
    ∀ {acc}, acc < U64 → U64 ≤ acc + sumSpace rs →
      ∃ p, sizePass rs acc = .error (.overflowSizeT p) := by
  induction rs with
  | nil =>
    intro acc h1 h2
    simp only [sumSpace] at h2
    omega
  | cons r rs ih =>
    intro acc h1 h2
    simp only [sizePass]
    have hs : CMSG_SPACE r.payload.length < U64 := CMSG_SPACE_lt _
    by_cases hw : (acc + CMSG_SPACE r.payload.length) % U64 < acc
    · exact ⟨acc, by rw [if_pos hw]⟩
    · rw [if_neg hw]
      have key : (acc + CMSG_SPACE r.payload.length) % U64 = acc + CMSG_SPACE r.payload.length ∧
          acc + CMSG_SPACE r.payload.length < U64 := by
        simp only [U64] at *
        omega
      rw [key.1]
      apply ih key.2
      simp only [sumSpace] at h2
      omega

theorem sizePass_error_shape {rs : List AncillaryRecord} :
    ∀ {acc e}, sizePass rs acc = .error e → ∃ p, e = .overflowSizeT p := by
  induction rs with
  | nil => intro acc e h; simp [sizePass] at h
  | cons r rs ih =>
    intro acc e h
    simp only [sizePass] at h
    split at h
    · simp only [Except.error.injEq] at h
      exact ⟨acc, h.symm⟩
    · exact ih h

/-! ### The fill pass writes the chunk image -/

theorem writeBytes_split (pre mid post data : List Nat) (h : data.length = mid.length) :
    writeBytes (pre ++ (mid ++ post)) pre.length data = pre ++ (data ++ post) := by
  unfold writeBytes
  rw [List.take_left, h]
  rw [show pre.length + mid.length = pre.length + mid.length from rfl]
  have hd : (pre ++ (mid ++ post)).drop (pre.length + mid.length) = post := by
    rw [List.drop_append, List.drop_left]
  rw [hd]
  simp [List.append_assoc]

theorem mallocBuf_length (init : List Nat) (t : Nat) : (mallocBuf init t).length = t := by
  unfold mallocBuf
  rw [List.length_append, List.length_take, List.length_replicate]
  omega

theorem recordChunk_eq_pad (r : AncillaryRecord) :
    recordChunk r
      = recordChunkPad r (List.replicate (CMSG_ALIGN r.payload.length - r.payload.length) 0) :=
  rfl

theorem chunkPad_reshape (r : AncillaryRecord) (pad tail : List Nat) :
    recordChunkPad r pad ++ tail
      = u64LE (CMSG_LEN r.payload.length) ++ (i32LE r.level ++ (i32LE r.type ++
          (r.payload.map (· % 256) ++ (pad ++ tail)))) := by
  simp [recordChunkPad, List.append_assoc]

theorem readU64_chunkPad (pre : List Nat) (r : AncillaryRecord) (pad tail : List Nat) :
    readU64 (pre ++ (recordChunkPad r pad ++ tail)) pre.length
      = CMSG_LEN r.payload.length := by
  rw [chunkPad_reshape, readU64_append _ _ _ (CMSG_LEN_lt _)]

theorem recordChunkPad_length {r : AncillaryRecord} {pad : List Nat}
    (hn : r.payload.length ≤ 2 ^ 63 - 1)
    (hp : pad.length = CMSG_ALIGN r.payload.length - r.payload.length) :
    (recordChunkPad r pad).length = CMSG_SPACE r.payload.length := by
  have hal := CMSG_ALIGN_bounds (n := r.payload.length) (by omega)
  simp [recordChunkPad, u64LE, i32LE, natLE_length, CMSG_SPACE_eq hn, cmsghdrSize, hp]
  omega

theorem CMSG_NXTHDR_some {buf : List Nat} {L o x : Nat}
    (h : CMSG_NXTHDR buf L o = some x) :
    x = o + CMSG_ALIGN (readU64 buf o) := by
  unfold CMSG_NXTHDR at h
  split at h
  · exact absurd h (by simp)
  · dsimp only at h
    split at h
    · exact absurd h (by simp)
    · simpa using h.symm

theorem fillWritesCore (pre A B C D : List Nat) (r : AncillaryRecord)
    (hA : A.length = 8) (hB : B.length = 4) (hC : C.length = 4)
    (hD : r.payload.length ≤ D.length) :
    writeBytes (writeBytes (writeBytes (writeBytes (pre ++ (A ++ (B ++ (C ++ D))))
        (pre.length + 8) (i32LE r.level)) (pre.length + 12) (i32LE r.type))
        pre.length (u64LE (CMSG_LEN r.payload.length)))
        (pre.length + cmsghdrSize) (r.payload.map (· % 256))
      = pre ++ (u64LE (CMSG_LEN r.payload.length) ++ (i32LE r.level ++ (i32LE r.type ++
          (r.payload.map (· % 256) ++ D.drop r.payload.length)))) := by
  have hc16 : cmsghdrSize = 16 := rfl
  have hl4 : (i32LE r.level).length = 4 := by simp [i32LE, natLE_length]
  have ht4 : (i32LE r.type).length = 4 := by simp [i32LE, natLE_length]
  have hu8 : (u64LE (CMSG_LEN r.payload.length)).length = 8 := by simp [u64LE, natLE_length]
  have hpn : (r.payload.map (· % 256)).length = r.payload.length := by simp
  have e1 : writeBytes (pre ++ (A ++ (B ++ (C ++ D)))) (pre.length + 8) (i32LE r.level)
      = pre ++ (A ++ (i32LE r.level ++ (C ++ D))) := by
    have hre : pre ++ (A ++ (B ++ (C ++ D))) = (pre ++ A) ++ (B ++ (C ++ D)) := by
      simp [List.append_assoc]
    rw [hre, show pre.length + 8 = (pre ++ A).length from by simp [hA],
      writeBytes_split _ _ _ _ (by rw [hl4, hB])]
    simp [List.append_assoc]
  have e2 : writeBytes (pre ++ (A ++ (i32LE r.level ++ (C ++ D)))) (pre.length + 12)
        (i32LE r.type)
      = pre ++ (A ++ (i32LE r.level ++ (i32LE r.type ++ D))) := by
    have hre : pre ++ (A ++ (i32LE r.level ++ (C ++ D)))
        = (pre ++ A ++ i32LE r.level) ++ (C ++ D) := by
      simp [List.append_assoc]
    rw [hre, show pre.length + 12 = (pre ++ A ++ i32LE r.level).length from by
        simp [hA, hl4], writeBytes_split _ _ _ _ (by rw [ht4, hC])]
    simp [List.append_assoc]
  have e3 : writeBytes (pre ++ (A ++ (i32LE r.level ++ (i32LE r.type ++ D)))) pre.length
        (u64LE (CMSG_LEN r.payload.length))
      = pre ++ (u64LE (CMSG_LEN r.payload.length) ++ (i32LE r.level ++ (i32LE r.type ++ D))) := by
    rw [writeBytes_split _ _ _ _ (by rw [hu8, hA])]
  have hDsplit : D = D.take r.payload.length ++ D.drop r.payload.length :=
    (List.take_append_drop _ _).symm
  have e4 : writeBytes (pre ++ (u64LE (CMSG_LEN r.payload.length) ++ (i32LE r.level ++
        (i32LE r.type ++ D)))) (pre.length + cmsghdrSize) (r.payload.map (· % 256))
      = pre ++ (u64LE (CMSG_LEN r.payload.length) ++ (i32LE r.level ++ (i32LE r.type ++
          (r.payload.map (· % 256) ++ D.drop r.payload.length)))) := by
    conv_lhs => rw [hDsplit]
    have hre : pre ++ (u64LE (CMSG_LEN r.payload.length) ++ (i32LE r.level ++ (i32LE r.type ++
        (D.take r.payload.length ++ D.drop r.payload.length))))
        = (pre ++ u64LE (CMSG_LEN r.payload.length) ++ i32LE r.level ++ i32LE r.type) ++
          (D.take r.payload.length ++ D.drop r.payload.length) := by
      simp [List.append_assoc]
    rw [hre, show pre.length + cmsghdrSize = (pre ++ u64LE (CMSG_LEN r.payload.length) ++
        i32LE r.level ++ i32LE r.type).length from by simp [hl4, ht4, hu8, hc16],
      writeBytes_split _ _ _ _ (by rw [hpn, List.length_take]; omega)]
    simp [List.append_assoc]
  rw [e1, e2, e3, e4]

theorem fillWritesPad (pre rest : List Nat) (r : AncillaryRecord)
    (hn : r.payload.length ≤ 2 ^ 63 - 1)
    (hR : CMSG_SPACE r.payload.length ≤ rest.length) :
    writeBytes (writeBytes (writeBytes (writeBytes (pre ++ rest)
        (pre.length + 8) (i32LE r.level)) (pre.length + 12) (i32LE r.type))
        pre.length (u64LE (CMSG_LEN r.payload.length)))
        (pre.length + cmsghdrSize) (r.payload.map (· % 256))
      = pre ++ (recordChunkPad r
            ((rest.drop (cmsghdrSize + r.payload.length)).take
              (CMSG_ALIGN r.payload.length - r.payload.length)) ++
          rest.drop (CMSG_SPACE r.payload.length)) := by
  have hal := CMSG_ALIGN_bounds (n := r.payload.length) (by omega)
  have hsp := CMSG_SPACE_eq hn
  have hc16 : cmsghdrSize = 16 := rfl
  rw [hc16] at hsp
  have h16R : 16 ≤ rest.length := by omega
  have hnR : 16 + r.payload.length ≤ rest.length := by omega
  have hA : (rest.take 8).length = 8 := by rw [List.length_take]; omega
  have hB : ((rest.drop 8).take 4).length = 4 := by
    rw [List.length_take, List.length_drop]
    omega
  have hC : (((rest.drop 8).drop 4).take 4).length = 4 := by
    rw [List.length_take, List.length_drop, List.length_drop]
    omega
  have hD16 : ((rest.drop 8).drop 4).drop 4 = rest.drop 16 := by
    simp [List.drop_drop]
  have hDlen : r.payload.length ≤ (((rest.drop 8).drop 4).drop 4).length := by
    rw [hD16, List.length_drop]
    omega
  have hsplit : rest
      = rest.take 8 ++ ((rest.drop 8).take 4 ++ (((rest.drop 8).drop 4).take 4 ++
          ((rest.drop 8).drop 4).drop 4)) := by
    rw [List.take_append_drop, List.take_append_drop, List.take_append_drop]
  have htail : rest.drop (16 + r.payload.length)
      = (rest.drop (16 + r.payload.length)).take
          (CMSG_ALIGN r.payload.length - r.payload.length)
        ++ rest.drop (CMSG_SPACE r.payload.length) := by
    conv_lhs => rw [← List.take_append_drop
      (CMSG_ALIGN r.payload.length - r.payload.length) (rest.drop (16 + r.payload.length))]
    congr 1
    rw [List.drop_drop]
    have harith : 16 + r.payload.length + (CMSG_ALIGN r.payload.length - r.payload.length)
        = CMSG_SPACE r.payload.length := by omega
    rw [harith]
  conv_lhs => rw [hsplit]
  rw [fillWritesCore pre _ _ _ _ r hA hB hC hDlen, hD16, List.drop_drop]
  conv_lhs => rw [htail]
  rw [hc16, chunkPad_reshape]

theorem SOCKLEN_MAX_eq : SOCKLEN_MAX = 2147483647 := rfl

theorem SOCKLEN_MAX_lt_U64 : SOCKLEN_MAX < U64 := by norm_num [SOCKLEN_MAX, U64]

theorem sumSpace_eq_zero {rs : List AncillaryRecord}
    (hv : ∀ r ∈ rs, r.payload.length ≤ 2 ^ 63 - 1) (h : sumSpace rs = 0) : rs = [] := by
  cases rs with
  | nil => rfl
  | cons r rs' =>
    have h16 := CMSG_SPACE_ge_hdr (hv r (by simp))
    have hc : cmsghdrSize = 16 := rfl
    simp only [sumSpace] at h
    omega

theorem fillPass_shape :
    ∀ (rs : List AncillaryRecord) (pre rest : List Nat) (L : Nat) (c : Option Nat),
      (∀ x ∈ rs, x.payload.length ≤ 2 ^ 63 - 1) →
      L = pre.length + sumSpace rs →
      rest.length = sumSpace rs →
      L ≤ SOCKLEN_MAX →
      (rs = [] ∨ c = some pre.length) →
      fillPass L rs (pre ++ rest) c = .aborted ∨
        ∃ tail, ChunksWithPads rs tail ∧ fillPass L rs (pre ++ rest) c = .ok (pre ++ tail) := by
  intro rs
  induction rs with
  | nil =>
    intro pre rest L c _ _ hrest _ _
    have hr0 : rest = [] := by
      rw [show sumSpace [] = 0 from rfl] at hrest
      exact List.length_eq_zero.mp hrest
    subst hr0
    exact Or.inr ⟨[], ChunksWithPads.nil, by simp [fillPass]⟩
  | cons r rs ih =>
    intro pre rest L c hv hL hrest hmax hc
    rcases hc with hc | hc
    · exact absurd hc (by simp)
    subst hc
    have hn : r.payload.length ≤ 2 ^ 63 - 1 := hv r (by simp)
    have hv2 : ∀ x ∈ rs, x.payload.length ≤ 2 ^ 63 - 1 := fun x hx => hv x (by simp [hx])
    have hsum : sumSpace (r :: rs) = CMSG_SPACE r.payload.length + sumSpace rs := rfl
    have hlenle := CMSG_LEN_le_SPACE hn
    have hds : ¬ SOCKLEN_MAX < CMSG_LEN r.payload.length := by
      rw [SOCKLEN_MAX_eq] at hmax ⊢
      omega
    have hR : CMSG_SPACE r.payload.length ≤ rest.length := by omega
    simp only [fillPass]
    rw [if_neg hds, fillWritesPad pre rest r hn hR]
    set pad := (rest.drop (cmsghdrSize + r.payload.length)).take
      (CMSG_ALIGN r.payload.length - r.payload.length) with hpad
    have hpadlen : pad.length = CMSG_ALIGN r.payload.length - r.payload.length := by
      have hal := CMSG_ALIGN_bounds (n := r.payload.length) (by omega)
      have hsp := CMSG_SPACE_eq hn
      have hc16 : cmsghdrSize = 16 := rfl
      rw [hpad, List.length_take, List.length_drop, hc16]
      rw [hc16] at hsp
      omega
    have hchl : (recordChunkPad r pad).length = CMSG_SPACE r.payload.length :=
      recordChunkPad_length hn hpadlen
    have hread : readU64 (pre ++ (recordChunkPad r pad ++
        rest.drop (CMSG_SPACE r.payload.length))) pre.length
        = CMSG_LEN r.payload.length := readU64_chunkPad pre r pad _
    have hguard : ¬ readU64 (pre ++ (recordChunkPad r pad ++
        rest.drop (CMSG_SPACE r.payload.length))) pre.length < cmsghdrSize := by
      rw [hread, CMSG_LEN_eq hn]
      have hc16 : cmsghdrSize = 16 := rfl
      omega
    cases rs with
    | nil =>
      refine Or.inr ⟨recordChunkPad r pad ++ rest.drop (CMSG_SPACE r.payload.length), ?_, ?_⟩
      · have hdrop : rest.drop (CMSG_SPACE r.payload.length) = [] := by
          apply List.drop_eq_nil_of_le
          have h0 : sumSpace ([] : List AncillaryRecord) = 0 := rfl
          omega
        rw [hdrop]
        exact ChunksWithPads.cons r pad [] [] hpadlen ChunksWithPads.nil
      · simp [fillPass]
    | cons r2 rs2 =>
      cases hNX : CMSG_NXTHDR (pre ++ (recordChunkPad r pad ++
          rest.drop (CMSG_SPACE r.payload.length))) L pre.length with
      | none =>
        exact Or.inl (by simp [fillPass])
      | some x =>
        have hx : x = pre.length + CMSG_SPACE r.payload.length := by
          have h1 := CMSG_NXTHDR_some hNX
          rw [hread, CMSG_ALIGN_CMSG_LEN hn] at h1
          exact h1
        rw [hx]
        have hpre2 : (pre ++ recordChunkPad r pad).length
            = pre.length + CMSG_SPACE r.payload.length := by
          rw [List.length_append, hchl]
        have hre : pre ++ (recordChunkPad r pad ++ rest.drop (CMSG_SPACE r.payload.length))
            = (pre ++ recordChunkPad r pad) ++ rest.drop (CMSG_SPACE r.payload.length) := by
          simp [List.append_assoc]
        rw [hre, ← hpre2]
        have hres := ih (pre ++ recordChunkPad r pad) (rest.drop (CMSG_SPACE r.payload.length))
          L (some (pre ++ recordChunkPad r pad).length) hv2
          (by rw [hpre2, hL, hsum]; omega)
          (by rw [List.length_drop, hrest, hsum]; omega)
          hmax (Or.inr rfl)
        rcases hres with hres | ⟨tail, hch, hres⟩
        · rw [hres]
          exact Or.inl rfl
        · rw [hres]
          refine Or.inr ⟨recordChunkPad r pad ++ tail,
            ChunksWithPads.cons r pad _ _ hpadlen hch, ?_⟩
          simp [List.append_assoc]

theorem encodeControl_shape (init : List Nat) (rs : List AncillaryRecord)
    (hlen : ∀ r ∈ rs, r.payload.length ≤ 2 ^ 63 - 1) :
    (∃ e, encodeControl init rs = .error e) ∨ encodeControl init rs = .aborted ∨
      ∃ buf, ChunksWithPads rs buf ∧
        encodeControl init rs
          = .ok ⟨if sumSpace rs = 0 then none else some buf, sumSpace rs⟩ := by
  by_cases hU : sumSpace rs < U64
  · have hsp : sizePass rs 0 = .ok (sumSpace rs) := by
      have h := @sizePass_ok_of_lt rs 0 (by omega)
      simpa using h
    by_cases hmax : SOCKLEN_MAX < sumSpace rs
    · refine Or.inl ⟨.overflowSocklen (sumSpace rs), ?_⟩
      simp only [encodeControl, hsp]
      rw [if_pos (show sumSpace rs ≠ 0 ∧ SOCKLEN_MAX < sumSpace rs from ⟨by omega, hmax⟩)]
    · by_cases h0 : sumSpace rs = 0
      · have hrs := sumSpace_eq_zero hlen h0
        subst hrs
        exact Or.inr (Or.inr ⟨[], ChunksWithPads.nil, rfl⟩)
      · have h16 : cmsghdrSize ≤ sumSpace rs := by
          cases rs with
          | nil => exact absurd rfl h0
          | cons r rs2 =>
            have := CMSG_SPACE_ge_hdr (hlen r (by simp))
            rw [sumSpace_cons]
            omega
        have hfirst : CMSG_FIRSTHDR (sumSpace rs) = some 0 := by
          unfold CMSG_FIRSTHDR
          rw [if_pos h16]
        have hshape := fillPass_shape rs [] (mallocBuf init (sumSpace rs)) (sumSpace rs)
          (some 0) hlen (by simp) (mallocBuf_length init (sumSpace rs)) (by omega)
          (Or.inr rfl)
        simp only [List.nil_append] at hshape
        rcases hshape with hab | ⟨tail, hch, hok⟩
        · refine Or.inr (Or.inl ?_)
          simp only [encodeControl, hsp]
          rw [if_neg (by rintro ⟨h1, h2⟩; omega), hfirst, hab]
        · refine Or.inr (Or.inr ⟨tail, hch, ?_⟩)
          simp only [encodeControl, hsp]
          rw [if_neg (by rintro ⟨h1, h2⟩; omega), hfirst, hok]
  · obtain ⟨p, hp⟩ := @sizePass_wrap rs 0 U64_pos (by omega)
    exact Or.inl ⟨.overflowSizeT p, by simp only [encodeControl, hp]⟩

theorem encodeControl_err_of_big {init : List Nat} {rs : List AncillaryRecord}
    (h : SOCKLEN_MAX < sumSpace rs) :
    ∃ e, encodeControl init rs = .error e ∧
      ((∃ p, e = .overflowSizeT p) ∨ e = .overflowSocklen (sumSpace rs)) := by
  by_cases hU : sumSpace rs < U64
  · have hsp : sizePass rs 0 = .ok (sumSpace rs) := by
      have h2 := @sizePass_ok_of_lt rs 0 (by omega)
      simpa using h2
    refine ⟨.overflowSocklen (sumSpace rs), ?_, Or.inr rfl⟩
    simp only [encodeControl, hsp]
    rw [if_pos (show sumSpace rs ≠ 0 ∧ SOCKLEN_MAX < sumSpace rs from ⟨by omega, h⟩)]
  · obtain ⟨p, hp⟩ := @sizePass_wrap rs 0 U64_pos (by omega)
    refine ⟨.overflowSizeT p, ?_, Or.inl ⟨p, rfl⟩⟩
    simp only [encodeControl, hp]

theorem encodeControl_err_shape {init : List Nat} {rs : List AncillaryRecord} {e : EncodeError}
    (hlen : ∀ r ∈ rs, r.payload.length ≤ 2 ^ 63 - 1)
    (h : encodeControl init rs = .error e) :
    (∃ p, e = .overflowSizeT p) ∨
      (e = .overflowSocklen (sumSpace rs) ∧ SOCKLEN_MAX < sumSpace rs) := by
  by_cases hU : sumSpace rs < U64
  · have hsp : sizePass rs 0 = .ok (sumSpace rs) := by
      have h2 := @sizePass_ok_of_lt rs 0 (by omega)
      simpa using h2
    by_cases hmax : SOCKLEN_MAX < sumSpace rs
    · obtain ⟨e2, he2, hsh⟩ := @encodeControl_err_of_big init rs hmax
      rw [he2] at h
      simp only [EncodeResult.error.injEq] at h
      subst h
      rcases hsh with hs | hs
      · exact Or.inl hs
      · exact Or.inr ⟨hs, hmax⟩
    · exfalso
      by_cases h0 : sumSpace rs = 0
      · have hrs := sumSpace_eq_zero hlen h0
        subst hrs
        rw [show encodeControl init [] = .ok ⟨none, 0⟩ from rfl] at h
        simp at h
      · have h16 : cmsghdrSize ≤ sumSpace rs := by
          cases rs with
          | nil => exact absurd rfl h0
          | cons r rs2 =>
            have := CMSG_SPACE_ge_hdr (hlen r (by simp))
            rw [sumSpace_cons]
            omega
        have hfirst : CMSG_FIRSTHDR (sumSpace rs) = some 0 := by
          unfold CMSG_FIRSTHDR
          rw [if_pos h16]
        have hshape := fillPass_shape rs [] (mallocBuf init (sumSpace rs)) (sumSpace rs)
          (some 0) hlen (by simp) (mallocBuf_length init (sumSpace rs)) (by omega)
          (Or.inr rfl)
        simp only [List.nil_append] at hshape
        simp only [encodeControl, hsp] at h
        rw [if_neg (by rintro ⟨h1, h2⟩; omega), hfirst] at h
        rcases hshape with hab | ⟨tail, _, hok⟩
        · rw [hab] at h
          simp at h
        · rw [hok] at h
          simp at h
  · obtain ⟨p, hp⟩ := @sizePass_wrap rs 0 U64_pos (by omega)
    simp only [encodeControl, hp, EncodeResult.error.injEq] at h
    exact Or.inl ⟨p, h.symm⟩

/-! ### Parsing an encoded buffer -/

theorem map_mod_self {l : List Nat} (h : ∀ b ∈ l, b < 256) : l.map (· % 256) = l := by
  induction l with
  | nil => rfl
  | cons a l ih =>
    simp only [List.map_cons, List.cons.injEq]
    exact ⟨Nat.mod_eq_of_lt (h a (by simp)), ih (fun b hb => h b (by simp [hb]))⟩

theorem ValidRecord.lenBound {r : AncillaryRecord} (h : ValidRecord r) :
    r.payload.length ≤ 2 ^ 63 - 1 := h.2.2.2.2.1

theorem ValidRecord.bytes {r : AncillaryRecord} (h : ValidRecord r) :
    ∀ b ∈ r.payload, b < 256 := h.2.2.2.2.2

theorem chunk_reshape (r : AncillaryRecord) (tail : List Nat) :
    recordChunk r ++ tail
      = u64LE (CMSG_LEN r.payload.length) ++ (i32LE r.level ++ (i32LE r.type ++
          (r.payload.map (· % 256) ++
            (List.replicate (CMSG_ALIGN r.payload.length - r.payload.length) 0 ++ tail)))) := by
  simp [recordChunk, List.append_assoc]

theorem readU64_chunk (pre : List Nat) (r : AncillaryRecord) (tail : List Nat) :
    readU64 (pre ++ (recordChunk r ++ tail)) pre.length = CMSG_LEN r.payload.length := by
  rw [chunk_reshape, readU64_append _ _ _ (CMSG_LEN_lt _)]

theorem decodeEntryAt_chunkPad (pre : List Nat) (r : AncillaryRecord) (pad tail : List Nat)
    (hvr : ValidRecord r) :
    decodeEntryAt (pre ++ (recordChunkPad r pad ++ tail)) pre.length = entryOf r := by
  obtain ⟨hl1, hl2, ht1, ht2, hn, hb⟩ := hvr
  have h64 := readU64_chunkPad pre r pad tail
  have hlvl : readI32 (pre ++ (recordChunkPad r pad ++ tail)) (pre.length + 8) = r.level := by
    have hre2 : pre ++ (recordChunkPad r pad ++ tail)
        = (pre ++ u64LE (CMSG_LEN r.payload.length)) ++ (i32LE r.level ++ (i32LE r.type ++
            (r.payload.map (· % 256) ++ (pad ++ tail)))) := by
      simp [recordChunkPad, List.append_assoc]
    have hlen : pre.length + 8 = (pre ++ u64LE (CMSG_LEN r.payload.length)).length := by
      simp [u64LE, natLE_length]
    rw [hre2, hlen, readI32_append _ _ _ hl1 hl2]
  have hty : readI32 (pre ++ (recordChunkPad r pad ++ tail)) (pre.length + 12) = r.type := by
    have hre3 : pre ++ (recordChunkPad r pad ++ tail)
        = (pre ++ u64LE (CMSG_LEN r.payload.length) ++ i32LE r.level) ++ (i32LE r.type ++
            (r.payload.map (· % 256) ++ (pad ++ tail))) := by
      simp [recordChunkPad, List.append_assoc]
    have hlen : pre.length + 12
        = (pre ++ u64LE (CMSG_LEN r.payload.length) ++ i32LE r.level).length := by
      simp [u64LE, i32LE, natLE_length]
    rw [hre3, hlen, readI32_append _ _ _ ht1 ht2]
  have hpay : ((pre ++ (recordChunkPad r pad ++ tail)).drop (pre.length + cmsghdrSize)).take
      r.payload.length = r.payload := by
    have hre4 : pre ++ (recordChunkPad r pad ++ tail)
        = (pre ++ u64LE (CMSG_LEN r.payload.length) ++ i32LE r.level ++ i32LE r.type) ++
          (r.payload.map (· % 256) ++ (pad ++ tail)) := by
      simp [recordChunkPad, List.append_assoc]
    have hlen : pre.length + cmsghdrSize = (pre ++ u64LE (CMSG_LEN r.payload.length) ++
        i32LE r.level ++ i32LE r.type).length := by
      simp [u64LE, i32LE, natLE_length, cmsghdrSize]
    rw [hre4, hlen, List.drop_left,
      show r.payload.length = (r.payload.map (· % 256)).length from by simp, List.take_left,
      map_mod_self hb]
  have hpl : (CMSG_LEN r.payload.length + (U64 - cmsghdrSize)) % U64 = r.payload.length := by
    rw [CMSG_LEN_eq hn]
    have hc : cmsghdrSize = 16 := rfl
    simp only [U64, hc]
    omega
  unfold decodeEntryAt entryOf
  simp only [h64, hlvl, hty, hpl, hpay]
  rw [if_pos (show r.payload.length < 2 ^ 63 from by omega)]

theorem decodeEntryAt_chunk (pre : List Nat) (r : AncillaryRecord) (tail : List Nat)
    (hvr : ValidRecord r) :
    decodeEntryAt (pre ++ (recordChunk r ++ tail)) pre.length = entryOf r := by
  rw [recordChunk_eq_pad]
  exact decodeEntryAt_chunkPad pre r _ tail hvr

theorem decodeFrom_chunks :
    ∀ (rs1 : List AncillaryRecord) (r : AncillaryRecord) (done : List AncillaryRecord)
      (L Z fuel : Nat),
      (∀ x ∈ done ++ r :: rs1, ValidRecord x) →
      sumSpace done + CMSG_SPACE r.payload.length ≤ L →
      L ≤ sumSpace (done ++ r :: rs1) →
      L < sumSpace done + 16 * fuel →
      decodeFrom (List.take L (encodeChunks (done ++ r :: rs1)) ++ List.replicate Z 0) L
        (sumSpace done) fuel
        = entryOf r ++ emittedFrom L rs1 (sumSpace done + CMSG_SPACE r.payload.length) := by
  intro rs1
  induction rs1 with
  | nil =>
    intro r done L Z fuel hv hlo hhi hfuel
    have hvr : ValidRecord r := hv r (by simp)
    have hn := hvr.lenBound
    have hvdone : ∀ x ∈ done, ValidRecord x := fun x hx => hv x (by simp [hx])
    have hlen_done : ∀ x ∈ done, x.payload.length ≤ 2 ^ 63 - 1 :=
      fun x hx => (hvdone x hx).lenBound
    have hpre : (encodeChunks done).length = sumSpace done := encodeChunks_length hlen_done
    have hsp16 : cmsghdrSize ≤ CMSG_SPACE r.payload.length := CMSG_SPACE_ge_hdr hn
    have hc16 : cmsghdrSize = 16 := rfl
    have hsplitall : encodeChunks (done ++ [r])
        = (encodeChunks done ++ recordChunk r) ++ encodeChunks ([] : List AncillaryRecord) := by
      rw [encodeChunks_append]
      simp [encodeChunks, List.append_assoc]
    have hlen2 : (encodeChunks done ++ recordChunk r).length
        = sumSpace done + CMSG_SPACE r.payload.length := by
      simp [hpre, recordChunk_length hn]
    have hsum1 : sumSpace (done ++ [r]) = sumSpace done + CMSG_SPACE r.payload.length := by
      rw [sumSpace_append]
      simp [sumSpace]
    obtain ⟨f, rfl⟩ : ∃ f, fuel = f + 1 := by
      cases fuel with
      | zero => exact absurd hfuel (by omega)
      | succ f => exact ⟨f, rfl⟩
    have hBre : List.take L (encodeChunks (done ++ [r])) ++ List.replicate Z 0
        = encodeChunks done ++ (recordChunk r ++
            (List.take (L - (sumSpace done + CMSG_SPACE r.payload.length))
              (encodeChunks ([] : List AncillaryRecord)) ++ List.replicate Z 0)) := by
      rw [hsplitall, List.take_append_eq_append_take,
        List.take_of_length_le (by rw [hlen2]; exact hlo), hlen2]
      simp [List.append_assoc]
    rw [hBre]
    have hnx : CMSG_NXTHDR (encodeChunks done ++ (recordChunk r ++
        (List.take (L - (sumSpace done + CMSG_SPACE r.payload.length))
          (encodeChunks ([] : List AncillaryRecord)) ++ List.replicate Z 0))) L
        (sumSpace done) = none := by
      unfold CMSG_NXTHDR
      rw [← hpre, readU64_chunk, if_neg (by rw [CMSG_LEN_eq hn]; omega),
        CMSG_ALIGN_CMSG_LEN hn, hpre]
      dsimp only
      rw [if_pos (Or.inl (show L < sumSpace done + CMSG_SPACE r.payload.length + cmsghdrSize by
        rw [hsum1] at hhi
        omega))]
    simp only [decodeFrom, hnx]
    rw [← hpre, decodeEntryAt_chunk _ _ _ hvr]
    simp [emittedFrom]
  | cons r2 rs2 ih =>
    intro r done L Z fuel hv hlo hhi hfuel
    have hvr : ValidRecord r := hv r (by simp)
    have hn := hvr.lenBound
    have hvr2 : ValidRecord r2 := hv r2 (by simp)
    have hn2 := hvr2.lenBound
    have hvdone : ∀ x ∈ done, ValidRecord x := fun x hx => hv x (by simp [hx])
    have hlen_done : ∀ x ∈ done, x.payload.length ≤ 2 ^ 63 - 1 :=
      fun x hx => (hvdone x hx).lenBound
    have hpre : (encodeChunks done).length = sumSpace done := encodeChunks_length hlen_done
    have hsp16 : cmsghdrSize ≤ CMSG_SPACE r.payload.length := CMSG_SPACE_ge_hdr hn
    have hsp16b : cmsghdrSize ≤ CMSG_SPACE r2.payload.length := CMSG_SPACE_ge_hdr hn2
    have hc16 : cmsghdrSize = 16 := rfl
    have hsplitall : encodeChunks (done ++ r :: r2 :: rs2)
        = (encodeChunks done ++ recordChunk r) ++ encodeChunks (r2 :: rs2) := by
      rw [encodeChunks_append]
      simp [encodeChunks, List.append_assoc]
    have hlen2 : (encodeChunks done ++ recordChunk r).length
        = sumSpace done + CMSG_SPACE r.payload.length := by
      simp [hpre, recordChunk_length hn]
    have hsum1 : sumSpace (done ++ [r]) = sumSpace done + CMSG_SPACE r.payload.length := by
      rw [sumSpace_append]
      simp [sumSpace]
    obtain ⟨f, rfl⟩ : ∃ f, fuel = f + 1 := by
      cases fuel with
      | zero => exact absurd hfuel (by omega)
      | succ f => exact ⟨f, rfl⟩
    have hBre : List.take L (encodeChunks (done ++ r :: r2 :: rs2)) ++ List.replicate Z 0
        = encodeChunks done ++ (recordChunk r ++
            (List.take (L - (sumSpace done + CMSG_SPACE r.payload.length))
              (encodeChunks (r2 :: rs2)) ++ List.replicate Z 0)) := by
      rw [hsplitall, List.take_append_eq_append_take,
        List.take_of_length_le (by rw [hlen2]; exact hlo), hlen2]
      simp [List.append_assoc]
    rw [hBre]
    by_cases hcont :
        sumSpace done + CMSG_SPACE r.payload.length + CMSG_SPACE r2.payload.length ≤ L
    · have hTAILre : List.take (L - (sumSpace done + CMSG_SPACE r.payload.length))
          (encodeChunks (r2 :: rs2)) ++ List.replicate Z 0
          = recordChunk r2 ++
            (List.take (L - (sumSpace done + CMSG_SPACE r.payload.length) -
              CMSG_SPACE r2.payload.length) (encodeChunks rs2) ++ List.replicate Z 0) := by
        rw [show encodeChunks (r2 :: rs2) = recordChunk r2 ++ encodeChunks rs2 from rfl,
          List.take_append_eq_append_take,
          List.take_of_length_le (by rw [recordChunk_length hn2]; omega),
          recordChunk_length hn2]
        simp [List.append_assoc]
      have hread2 : readU64 (encodeChunks done ++ (recordChunk r ++
          (List.take (L - (sumSpace done + CMSG_SPACE r.payload.length))
            (encodeChunks (r2 :: rs2)) ++ List.replicate Z 0)))
          (sumSpace done + CMSG_SPACE r.payload.length) = CMSG_LEN r2.payload.length := by
        have hre5 : encodeChunks done ++ (recordChunk r ++
            (List.take (L - (sumSpace done + CMSG_SPACE r.payload.length))
              (encodeChunks (r2 :: rs2)) ++ List.replicate Z 0))
            = (encodeChunks done ++ recordChunk r) ++ (recordChunk r2 ++
              (List.take (L - (sumSpace done + CMSG_SPACE r.payload.length) -
                CMSG_SPACE r2.payload.length) (encodeChunks rs2) ++ List.replicate Z 0)) := by
          rw [hTAILre]
          simp [List.append_assoc]
        rw [hre5, ← hlen2, readU64_chunk]
      have hnx : CMSG_NXTHDR (encodeChunks done ++ (recordChunk r ++
          (List.take (L - (sumSpace done + CMSG_SPACE r.payload.length))
            (encodeChunks (r2 :: rs2)) ++ List.replicate Z 0))) L (sumSpace done)
          = some (sumSpace done + CMSG_SPACE r.payload.length) := by
        unfold CMSG_NXTHDR
        rw [← hpre, readU64_chunk, if_neg (by rw [CMSG_LEN_eq hn]; omega),
          CMSG_ALIGN_CMSG_LEN hn, hpre]
        dsimp only
        rw [hread2, CMSG_ALIGN_CMSG_LEN hn2]
        rw [if_neg (by omega)]
      simp only [decodeFrom, hnx]
      rw [← hpre, decodeEntryAt_chunk _ _ _ hvr, hpre]
      have hihres := ih r2 (done ++ [r]) L Z f
        (by rw [show (done ++ [r]) ++ r2 :: rs2 = done ++ r :: r2 :: rs2 from by simp]
            exact hv)
        (by rw [hsum1]; exact hcont)
        (by rw [show (done ++ [r]) ++ r2 :: rs2 = done ++ r :: r2 :: rs2 from by simp]
            exact hhi)
        (by rw [hsum1]; omega)
      rw [show (done ++ [r]) ++ r2 :: rs2 = done ++ r :: r2 :: rs2 from by simp] at hihres
      rw [hBre, hsum1] at hihres
      rw [hihres]
      simp only [emittedFrom]
      rw [if_pos hcont]
    · have hnx : CMSG_NXTHDR (encodeChunks done ++ (recordChunk r ++
          (List.take (L - (sumSpace done + CMSG_SPACE r.payload.length))
            (encodeChunks (r2 :: rs2)) ++ List.replicate Z 0))) L (sumSpace done) = none := by
        unfold CMSG_NXTHDR
        rw [← hpre, readU64_chunk, if_neg (by rw [CMSG_LEN_eq hn]; omega),
          CMSG_ALIGN_CMSG_LEN hn, hpre]
        dsimp only
        by_cases h16 : L < sumSpace done + CMSG_SPACE r.payload.length + cmsghdrSize
        · rw [if_pos (Or.inl h16)]
        · have hq : encodeChunks (r2 :: rs2) = u64LE (CMSG_LEN r2.payload.length) ++
              (i32LE r2.level ++ (i32LE r2.type ++ (r2.payload.map (· % 256) ++
                (List.replicate (CMSG_ALIGN r2.payload.length - r2.payload.length) 0 ++
                  encodeChunks rs2)))) := by
            show recordChunk r2 ++ encodeChunks rs2 = _
            simp [recordChunk, List.append_assoc]
          have hu8 : (u64LE (CMSG_LEN r2.payload.length)).length = 8 := by
            simp [u64LE, natLE_length]
          have hTAILre2 : List.take (L - (sumSpace done + CMSG_SPACE r.payload.length))
              (encodeChunks (r2 :: rs2)) ++ List.replicate Z 0
              = u64LE (CMSG_LEN r2.payload.length) ++
                (List.take (L - (sumSpace done + CMSG_SPACE r.payload.length) - 8)
                  (i32LE r2.level ++ (i32LE r2.type ++ (r2.payload.map (· % 256) ++
                    (List.replicate (CMSG_ALIGN r2.payload.length - r2.payload.length) 0 ++
                      encodeChunks rs2)))) ++ List.replicate Z 0) := by
            rw [hq, List.take_append_eq_append_take,
              List.take_of_length_le (by rw [hu8]; omega), hu8]
            simp [List.append_assoc]
          have hread2 : readU64 (encodeChunks done ++ (recordChunk r ++
              (List.take (L - (sumSpace done + CMSG_SPACE r.payload.length))
                (encodeChunks (r2 :: rs2)) ++ List.replicate Z 0)))
              (sumSpace done + CMSG_SPACE r.payload.length) = CMSG_LEN r2.payload.length := by
            have hre6 : encodeChunks done ++ (recordChunk r ++
                (List.take (L - (sumSpace done + CMSG_SPACE r.payload.length))
                  (encodeChunks (r2 :: rs2)) ++ List.replicate Z 0))
                = (encodeChunks done ++ recordChunk r) ++
                  (u64LE (CMSG_LEN r2.payload.length) ++
                    (List.take (L - (sumSpace done + CMSG_SPACE r.payload.length) - 8)
                      (i32LE r2.level ++ (i32LE r2.type ++ (r2.payload.map (· % 256) ++
                        (List.replicate (CMSG_ALIGN r2.payload.length - r2.payload.length) 0 ++
                          encodeChunks rs2)))) ++ List.replicate Z 0)) := by
              rw [hTAILre2]
              simp [List.append_assoc]
            rw [hre6, ← hlen2, readU64_append _ _ _ (CMSG_LEN_lt _)]
          rw [hread2, CMSG_ALIGN_CMSG_LEN hn2]
          rw [if_pos (Or.inr (by omega))]
      simp only [decodeFrom, hnx]
      rw [← hpre, decodeEntryAt_chunk _ _ _ hvr, hpre]
      simp only [emittedFrom]
      rw [if_neg hcont]
      simp

theorem decode_chunks (r : AncillaryRecord) (rs1 : List AncillaryRecord) (L Z : Nat)
    (hv : ∀ x ∈ r :: rs1, ValidRecord x)
    (hlo : CMSG_SPACE r.payload.length ≤ L) (hhi : L ≤ sumSpace (r :: rs1)) :
    decode (List.take L (encodeChunks (r :: rs1)) ++ List.replicate Z 0) L
      = emittedUpTo (r :: rs1) L := by
  have hn := (hv r (by simp)).lenBound
  have h16 : cmsghdrSize ≤ L := le_trans (CMSG_SPACE_ge_hdr hn) hlo
  unfold decode
  rw [show CMSG_FIRSTHDR L = some 0 from by unfold CMSG_FIRSTHDR; rw [if_pos h16]]
  show decodeFrom (List.take L (encodeChunks (r :: rs1)) ++ List.replicate Z 0) L 0 (L + 1)
      = emittedUpTo (r :: rs1) L
  simp only [emittedUpTo]
  rw [if_pos h16]
  have h := decodeFrom_chunks rs1 r [] L Z (L + 1) (by simpa using hv)
    (by simpa [sumSpace] using hlo) (by simpa using hhi)
    (by simp only [sumSpace]; omega)
  simpa [sumSpace] using h

theorem decode_zero (buf : List Nat) : decode buf 0 = [] := by
  unfold decode CMSG_FIRSTHDR
  rw [if_neg (by norm_num [cmsghdrSize])]

theorem length_le_sumSpace {rs : List AncillaryRecord}
    (h : ∀ x ∈ rs, x.payload.length ≤ 2 ^ 63 - 1) : rs.length ≤ sumSpace rs := by
  induction rs with
  | nil => simp [sumSpace]
  | cons r rs ih =>
    have h16 := CMSG_SPACE_ge_hdr (h r (by simp))
    have h2 := ih (fun x hx => h x (by simp [hx]))
    have hc : cmsghdrSize = 16 := rfl
    rw [sumSpace_cons]
    simp only [List.length_cons]
    omega

theorem decodeFrom_chunksPad :
    ∀ (rs : List AncillaryRecord) (pre tail : List Nat) (L fuel : Nat),
      ChunksWithPads rs tail →
      (∀ x ∈ rs, ValidRecord x) →
      (∀ x ∈ rs, ¬(x.level = 0 ∧ x.type = 0)) →
      rs ≠ [] →
      L = pre.length + sumSpace rs →
      rs.length ≤ fuel →
      decodeFrom (pre ++ tail) L pre.length fuel
        = rs.map (fun x => ⟨x.level, x.type, x.payload.length, x.payload⟩) := by
  intro rs
  induction rs with
  | nil =>
    intro pre tail L fuel _ _ _ hne _ _
    exact absurd rfl hne
  | cons r rs ih =>
    intro pre tail L fuel hch hv hnz _ hL hfuel
    cases hch with
    | cons _ pad _ tail2 hpadlen hch2 =>
      have hvr : ValidRecord r := hv r (by simp)
      have hn := hvr.lenBound
      have hchl : (recordChunkPad r pad).length = CMSG_SPACE r.payload.length :=
        recordChunkPad_length hn hpadlen
      have hsp16 : cmsghdrSize ≤ CMSG_SPACE r.payload.length := CMSG_SPACE_ge_hdr hn
      have hc16 : cmsghdrSize = 16 := rfl
      have hread := readU64_chunkPad pre r pad tail2
      obtain ⟨f, rfl⟩ : ∃ f, fuel = f + 1 := by
        cases fuel with
        | zero => exact absurd hfuel (by simp)
        | succ f => exact ⟨f, rfl⟩
      have hguard : ¬ readU64 (pre ++ (recordChunkPad r pad ++ tail2)) pre.length
          < cmsghdrSize := by
        rw [hread, CMSG_LEN_eq hn]
        omega
      cases hch2 with
      | nil =>
        have hL1 : L = pre.length + CMSG_SPACE r.payload.length := by
          rw [hL, sumSpace_cons, sumSpace_nil]
          omega
        have hnx : CMSG_NXTHDR (pre ++ (recordChunkPad r pad ++ [])) L pre.length = none := by
          unfold CMSG_NXTHDR
          rw [if_neg hguard, hread, CMSG_ALIGN_CMSG_LEN hn]
          dsimp only
          rw [if_pos (Or.inl (by omega))]
        simp only [decodeFrom, hnx]
        rw [decodeEntryAt_chunkPad pre r pad [] hvr]
        unfold entryOf
        rw [if_neg (hnz r (by simp))]
        simp
      | cons r2 pad2 rs2x tail3 hpadlen2 hch3 =>
        have hvr2 : ValidRecord r2 := hv r2 (by simp)
        have hn2 := hvr2.lenBound
        have hchl2 : (recordChunkPad r2 pad2).length = CMSG_SPACE r2.payload.length :=
          recordChunkPad_length hn2 hpadlen2
        have hsp16b : cmsghdrSize ≤ CMSG_SPACE r2.payload.length := CMSG_SPACE_ge_hdr hn2
        have hre : pre ++ (recordChunkPad r pad ++ (recordChunkPad r2 pad2 ++ tail3))
            = (pre ++ recordChunkPad r pad) ++ (recordChunkPad r2 pad2 ++ tail3) := by
          simp [List.append_assoc]
        have hpre2 : (pre ++ recordChunkPad r pad).length
            = pre.length + CMSG_SPACE r.payload.length := by
          rw [List.length_append, hchl]
        have hread2 : readU64 (pre ++ (recordChunkPad r pad ++
            (recordChunkPad r2 pad2 ++ tail3)))
            (pre.length + CMSG_SPACE r.payload.length) = CMSG_LEN r2.payload.length := by
          rw [hre, ← hpre2]
          exact readU64_chunkPad _ r2 pad2 tail3
        have hLsum : L = pre.length + CMSG_SPACE r.payload.length
            + CMSG_SPACE r2.payload.length + sumSpace rs2x := by
          rw [hL, sumSpace_cons, sumSpace_cons]
          omega
        have hnx : CMSG_NXTHDR (pre ++ (recordChunkPad r pad ++
            (recordChunkPad r2 pad2 ++ tail3))) L pre.length
            = some (pre.length + CMSG_SPACE r.payload.length) := by
          unfold CMSG_NXTHDR
          rw [if_neg hguard, hread, CMSG_ALIGN_CMSG_LEN hn]
          dsimp only
          rw [hread2, CMSG_ALIGN_CMSG_LEN hn2]
          rw [if_neg (by omega)]
        simp only [decodeFrom, hnx]
        rw [decodeEntryAt_chunkPad pre r pad _ hvr]
        have hres := ih (pre ++ recordChunkPad r pad) (recordChunkPad r2 pad2 ++ tail3) L f
          (ChunksWithPads.cons r2 pad2 rs2x tail3 hpadlen2 hch3)
          (fun x hx => hv x (by simp [hx]))
          (fun x hx => hnz x (by simp [hx]))
          (by simp)
          (by rw [hpre2, hL, sumSpace_cons]; omega)
          (by simp only [List.length_cons] at hfuel ⊢; omega)
        rw [hre, ← hpre2, hres]
        unfold entryOf
        rw [if_neg (hnz r (by simp))]
        simp

theorem decode_chunksPad (rs : List AncillaryRecord) (tail : List Nat)
    (hch : ChunksWithPads rs tail)
    (hv : ∀ x ∈ rs, ValidRecord x)
    (hnz : ∀ x ∈ rs, ¬(x.level = 0 ∧ x.type = 0)) :
    decode tail (sumSpace rs)
      = rs.map (fun x => ⟨x.level, x.type, x.payload.length, x.payload⟩) := by
  cases rs with
  | nil =>
    cases hch
    simpa [sumSpace] using decode_zero []
  | cons r rs1 =>
    have hn := (hv r (by simp)).lenBound
    have h16 : cmsghdrSize ≤ sumSpace (r :: rs1) := by
      have := CMSG_SPACE_ge_hdr hn
      rw [sumSpace_cons]
      omega
    unfold decode
    rw [show CMSG_FIRSTHDR (sumSpace (r :: rs1)) = some 0 from by
      unfold CMSG_FIRSTHDR; rw [if_pos h16]]
    have hfl : (r :: rs1).length ≤ sumSpace (r :: rs1) + 1 := by
      have := length_le_sumSpace (fun x hx => (hv x hx).lenBound)
      omega
    have h := decodeFrom_chunksPad (r :: rs1) [] tail (sumSpace (r :: rs1))
      (sumSpace (r :: rs1) + 1) hch hv hnz (by simp) (by simp) hfl
    simpa using h

theorem decodeEntryAt_no_zero {buf : List Nat} {o : Nat} {e : DecodedEntry}
    (h : e ∈ decodeEntryAt buf o) : ¬(e.level = 0 ∧ e.type = 0) := by
  simp only [decodeEntryAt] at h
  split at h
  · simp at h
  · next hz =>
    split at h <;>
      (simp only [List.mem_singleton] at h
       subst h
       simpa using hz)

theorem decodeFrom_no_zero :
    ∀ (fuel o : Nat) (buf : List Nat) (L : Nat) (e : DecodedEntry),
      e ∈ decodeFrom buf L o fuel → ¬(e.level = 0 ∧ e.type = 0) := by
  intro fuel
  induction fuel with
  | zero =>
    intro o buf L e h
    simp [decodeFrom] at h
  | succ f ih =>
    intro o buf L e h
    simp only [decodeFrom] at h
    cases hnx : CMSG_NXTHDR buf L o with
    | none =>
      rw [hnx] at h
      exact decodeEntryAt_no_zero h
    | some o2 =>
      rw [hnx] at h
      simp only [List.mem_append] at h
      rcases h with h | h
      · exact decodeEntryAt_no_zero h
      · exact ih o2 buf L e h

theorem decode_no_zero (buf : List Nat) (L : Nat) (e : DecodedEntry)
    (h : e ∈ decode buf L) : ¬(e.level = 0 ∧ e.type = 0) := by
  unfold decode at h
  cases hf : CMSG_FIRSTHDR L with
  | none =>
    rw [hf] at h
    simp at h
  | some o =>
    rw [hf] at h
    exact decodeFrom_no_zero _ _ _ _ _ h

theorem space_le_sumSpace {r : AncillaryRecord} {rs : List AncillaryRecord} (hr : r ∈ rs) :
    CMSG_SPACE r.payload.length ≤ sumSpace rs := by
  induction rs with
  | nil => simp at hr
  | cons x rs ih =>
    rcases List.mem_cons.mp hr with h | h
    · subst h
      simp only [sumSpace]
      omega
    · have := ih h
      simp only [sumSpace]
      omega

theorem encodeControl_err_socklen {init : List Nat} {rs : List AncillaryRecord}
    (h1 : SOCKLEN_MAX < sumSpace rs) (hU : sumSpace rs < U64) :
    encodeControl init rs = .error (.overflowSocklen (sumSpace rs)) := by
  have hsp : sizePass rs 0 = .ok (sumSpace rs) := by
    have h := @sizePass_ok_of_lt rs 0 (by omega)
    simpa using h
  simp only [encodeControl, hsp]
  rw [if_pos (show sumSpace rs ≠ 0 ∧ SOCKLEN_MAX < sumSpace rs from ⟨by omega, h1⟩)]

/-! ### Claim theorems -/

/-- C1, counterexample: the round-trip fails as stated, because the decoder's
zero-filter drops a record whose level and type are both zero.  Encoding the
single record `(0, 0, b"")` (here over a zero-extended empty allocation
parameter; a single 16-byte record leaves no byte unwritten, so the
allocation contents do not matter) succeeds and produces a 16-byte control
buffer, but decoding that buffer returns the empty record list, not the
record that was supplied. -/
theorem c1_roundtrip_counterexample :
    encodeControl [] [⟨0, 0, []⟩]
        = .ok ⟨some [16, 0, 0, 0, 0, 0, 0, 0, 0, 0, 0, 0, 0, 0, 0, 0], 16⟩ ∧
      decode [16, 0, 0, 0, 0, 0, 0, 0, 0, 0, 0, 0, 0, 0, 0, 0] 16 = [] :=
  ⟨rfl, rfl⟩

/-- C1, amended: for every allocation contents and every list of
representable ancillary records none of which has level and type both zero,
whenever encode returns a control buffer at all — it can instead fail with a
pre-allocation OverflowError, or abort on the line-226 assert when the
uninitialised look-ahead read of `CMSG_NXTHDR` misbehaves — decoding that
buffer returns the same payload and the same record list: same level, type
and unpadded payload bytes, in order, with no alignment padding
observable. -/
theorem c1_roundtrip_amended (payload : List Nat) (msgFlags : Int) (init : List Nat)
    (rs : List AncillaryRecord) (m : MsgControl)
    (hv : ∀ r ∈ rs, ValidRecord r)
    (hnz : ∀ r ∈ rs, ¬(r.level = 0 ∧ r.type = 0))
    (hok : encodeControl init rs = .ok m) :
    recvmsgDecode payload msgFlags (m.control.getD []) m.controllen
      = ⟨payload, msgFlags,
          rs.map (fun r => ⟨r.level, r.type, r.payload.length, r.payload⟩)⟩ := by
  have hlen : ∀ r ∈ rs, r.payload.length ≤ 2 ^ 63 - 1 := fun r hr => (hv r hr).lenBound
  rcases encodeControl_shape init rs hlen with ⟨e, he⟩ | he | ⟨buf, hch, he⟩
  · rw [he] at hok
    exact absurd hok (by simp)
  · rw [he] at hok
    exact absurd hok (by simp)
  · rw [he] at hok
    have hm : m = ⟨if sumSpace rs = 0 then none else some buf, sumSpace rs⟩ := by
      simpa using hok.symm
    subst hm
    by_cases h0 : sumSpace rs = 0
    · have hrs := sumSpace_eq_zero hlen h0
      subst hrs
      simp [recvmsgDecode, sumSpace, decode_zero]
    · dsimp only [recvmsgDecode]
      rw [if_neg h0]
      simp only [Option.getD_some]
      rw [decode_chunksPad rs buf hch hv hnz]

/-- C1, witness: the amended round trip at payload `b"ping"`, flags 0, an
empty (zero-extended) allocation parameter, and two records; encoding
returns the 48-byte buffer spelled out below and decoding it returns both
records. -/
theorem c1_roundtrip_amended_witness :
    recvmsgDecode [112, 105, 110, 103] 0
        [17, 0, 0, 0, 0, 0, 0, 0, 1, 0, 0, 0, 2, 0, 0, 0,
          7, 0, 0, 0, 0, 0, 0, 0,
          17, 0, 0, 0, 0, 0, 0, 0, 3, 0, 0, 0, 4, 0, 0, 0,
          9, 0, 0, 0, 0, 0, 0, 0] 48
      = ⟨[112, 105, 110, 103], 0, [⟨1, 2, 1, [7]⟩, ⟨3, 4, 1, [9]⟩]⟩ :=
  c1_roundtrip_amended [112, 105, 110, 103] 0 [] [⟨1, 2, [7]⟩, ⟨3, 4, [9]⟩]
    (MsgControl.mk (some [17, 0, 0, 0, 0, 0, 0, 0, 1, 0, 0, 0, 2, 0, 0, 0,
      7, 0, 0, 0, 0, 0, 0, 0,
      17, 0, 0, 0, 0, 0, 0, 0, 3, 0, 0, 0, 4, 0, 0, 0,
      9, 0, 0, 0, 0, 0, 0, 0]) 48)
    (by decide) (by decide) (by decide)

/-- C2, counterexample: encoding an empty record list does not produce a
distinct-from-absent empty buffer; it produces a null (`none`) `msg_control`
with `msg_controllen` 0 (source lines 204-207 set `msg_control = NULL`). -/
theorem c2_empty_counterexample :
    encodeControl [] [] = .ok ⟨none, 0⟩ ∧ encodeControl [] [] ≠ .ok ⟨some [], 0⟩ := by
  refine ⟨rfl, ?_⟩
  intro h
  rw [show encodeControl [] [] = .ok ⟨none, 0⟩ from rfl] at h
  simp at h

/-- C2, amended: encoding with an empty record list produces a null/omitted
control buffer (`msg_control = NULL`) with control length 0 — for every
allocation contents — and decoding a zero-length control buffer returns an
empty record list. -/
theorem c2_empty_amended :
    (∀ init : List Nat, encodeControl init [] = .ok ⟨none, 0⟩) ∧
      ∀ buf : List Nat, decode buf 0 = [] :=
  ⟨fun _ => rfl, decode_zero⟩

/-- C3, counterexample: a corrupt header — declared record length 1000 in a
16-byte received buffer — does not make decode fail with a ValidationError;
decode returns a record list containing the over-long record, with its
payload length computed from the corrupt header and its payload read from
the bytes actually present. -/
theorem c3_corrupt_counterexample :
    decode [232, 3, 0, 0, 0, 0, 0, 0, 1, 0, 0, 0, 1, 0, 0, 0] 16
      = [⟨1, 1, 984, []⟩] :=
  rfl

/-- C3, amended: decode has no validation error path.  A first header whose
declared record length reads past `received_length` still yields a record
with its level and type, no error, and iteration then stops cleanly because
no further record fits.  The emitted payload depends on the sign of the
`Py_ssize_t` count `cmsg_len - 16`: below `2 ^ 63` the record carries that
unchecked length and the bytes that actually follow the header; at or above
`2 ^ 63` the count is negative and CPython 2's `s#` substitutes `strlen`,
so the record carries the NUL-terminated prefix of the bytes behind the
header. -/
theorem c3_corrupt_amended (buf : List Nat) (L : Nat)
    (h16 : cmsghdrSize ≤ L)
    (hnz : ¬(readI32 buf 8 = 0 ∧ readI32 buf 12 = 0))
    (hpast : L < readU64 buf 0) (hwrap : readU64 buf 0 < U64 - 7) :
    decode buf L
      = if readU64 buf 0 - cmsghdrSize < 2 ^ 63 then
          [⟨readI32 buf 8, readI32 buf 12, readU64 buf 0 - cmsghdrSize,
            (buf.drop cmsghdrSize).take (readU64 buf 0 - cmsghdrSize)⟩]
        else
          [⟨readI32 buf 8, readI32 buf 12,
            ((buf.drop cmsghdrSize).takeWhile (fun b => b % 256 != 0)).length,
            (buf.drop cmsghdrSize).takeWhile (fun b => b % 256 != 0)⟩] := by
  have hc16 : cmsghdrSize = 16 := rfl
  unfold decode
  rw [show CMSG_FIRSTHDR L = some 0 from by unfold CMSG_FIRSTHDR; rw [if_pos h16]]
  show decodeFrom buf L 0 (L + 1) = _
  simp only [decodeFrom]
  have hnx : CMSG_NXTHDR buf L 0 = none := by
    unfold CMSG_NXTHDR
    rw [if_neg (by omega)]
    dsimp only
    have hal : CMSG_ALIGN (readU64 buf 0) = (readU64 buf 0 + 7) / 8 * 8 :=
      CMSG_ALIGN_eq (by simp only [U64] at hwrap; omega)
    rw [hal, if_pos (Or.inl (by omega))]
  simp only [hnx]
  simp only [decodeEntryAt, Nat.zero_add]
  rw [if_neg hnz]
  have hv64 := readU64_lt buf 0
  have hpl : (readU64 buf 0 + (U64 - cmsghdrSize)) % U64 = readU64 buf 0 - cmsghdrSize := by
    simp only [U64, hc16] at *
    omega
  rw [hpl]

/-- C3, witness: the amended statement at the concrete corrupt buffer with
declared length 1000 and received length 16 (a count in the non-negative
regime, so the take-slice branch applies). -/
theorem c3_corrupt_amended_witness :
    decode [232, 3, 0, 0, 0, 0, 0, 0, 1, 0, 0, 0, 1, 0, 0, 0] 16
      = if readU64 [232, 3, 0, 0, 0, 0, 0, 0, 1, 0, 0, 0, 1, 0, 0, 0] 0 - cmsghdrSize
            < 2 ^ 63 then
          [⟨readI32 [232, 3, 0, 0, 0, 0, 0, 0, 1, 0, 0, 0, 1, 0, 0, 0] 8,
            readI32 [232, 3, 0, 0, 0, 0, 0, 0, 1, 0, 0, 0, 1, 0, 0, 0] 12,
            readU64 [232, 3, 0, 0, 0, 0, 0, 0, 1, 0, 0, 0, 1, 0, 0, 0] 0 - cmsghdrSize,
            (([232, 3, 0, 0, 0, 0, 0, 0, 1, 0, 0, 0, 1, 0, 0, 0] : List Nat).drop
              cmsghdrSize).take
              (readU64 [232, 3, 0, 0, 0, 0, 0, 0, 1, 0, 0, 0, 1, 0, 0, 0] 0 - cmsghdrSize)⟩]
        else
          [⟨readI32 [232, 3, 0, 0, 0, 0, 0, 0, 1, 0, 0, 0, 1, 0, 0, 0] 8,
            readI32 [232, 3, 0, 0, 0, 0, 0, 0, 1, 0, 0, 0, 1, 0, 0, 0] 12,
            ((([232, 3, 0, 0, 0, 0, 0, 0, 1, 0, 0, 0, 1, 0, 0, 0] : List Nat).drop
              cmsghdrSize).takeWhile (fun b => b % 256 != 0)).length,
            (([232, 3, 0, 0, 0, 0, 0, 0, 1, 0, 0, 0, 1, 0, 0, 0] : List Nat).drop
              cmsghdrSize).takeWhile (fun b => b % 256 != 0)⟩] :=
  c3_corrupt_amended [232, 3, 0, 0, 0, 0, 0, 0, 1, 0, 0, 0, 1, 0, 0, 0] 16
    (by decide) (by decide) (by decide) (by decide)

/-- C4, counterexample: a single record whose stored length field
`CMSG_LEN(2^31) = 2^31 + 16` exceeds the platform maximum does make the
whole encode fail with an OverflowError, but the error identifies the
accumulated buffer size `2147483664` (the socklen_t check of lines 193-198),
not the offending record's declared length: the per-record
`CMSG_LEN(data_len) > SOCKLEN_MAX` check of lines 244-253 never fires. -/
theorem c4_overflow_counterexample :
    encodeControl [] [⟨1, 1, List.replicate (2 ^ 31) 0⟩]
        = .error (.overflowSocklen 2147483664) ∧
      (EncodeError.overflowSocklen 2147483664 ≠ .overflowCmsgLen (2 ^ 31)) := by
  have hL : (List.replicate (2 ^ 31) (0 : Nat)).length = 2 ^ 31 := List.length_replicate _ _
  have hsum : sumSpace [⟨1, 1, List.replicate (2 ^ 31) 0⟩] = 2147483664 := by
    rw [sumSpace_cons, sumSpace_nil, payload_mk, hL]
    norm_num [CMSG_SPACE, CMSG_ALIGN, cmsghdrSize, U64]
  constructor
  · have h := @encodeControl_err_socklen [] [⟨1, 1, List.replicate (2 ^ 31) 0⟩]
      (by rw [hsum]; norm_num [SOCKLEN_MAX]) (by rw [hsum]; norm_num [U64])
    rw [hsum] at h
    exact h
  · decide

/-- C4, amended: every OverflowError the encoder raises is raised before the
control buffer is allocated — it is either the size_t wrap error of the
sizing pass or the socklen_t total check, never the post-allocation
per-record check — for every allocation contents (the only post-allocation
failure is the line-226 assert abort, which raises no Python error), and a
record list containing a record whose stored length field exceeds 2^31-1
always fails with such a pre-allocation OverflowError, which names the
wrapped partial sum or the accumulated total rather than the offending
record's declared length. -/
theorem c4_overflow_amended (init : List Nat) (rs : List AncillaryRecord)
    (hlen : ∀ r ∈ rs, r.payload.length ≤ 2 ^ 63 - 1) :
    (∀ e, encodeControl init rs = .error e →
      (∃ p, e = .overflowSizeT p) ∨
        (e = .overflowSocklen (sumSpace rs) ∧ SOCKLEN_MAX < sumSpace rs)) ∧
    ((∃ r ∈ rs, SOCKLEN_MAX < CMSG_LEN r.payload.length) →
      ∃ e, encodeControl init rs = .error e ∧
        ((∃ p, e = .overflowSizeT p) ∨ e = .overflowSocklen (sumSpace rs))) := by
  constructor
  · intro e he
    exact encodeControl_err_shape hlen he
  · rintro ⟨r, hr, hbig⟩
    apply encodeControl_err_of_big
    have h1 : CMSG_LEN r.payload.length ≤ CMSG_SPACE r.payload.length :=
      CMSG_LEN_le_SPACE (hlen r hr)
    have h2 := space_le_sumSpace hr
    omega

/-- C4, witness: the amended statement at the single oversized record with
payload length 2^31. -/
theorem c4_overflow_amended_witness :
    ∃ e, encodeControl [] [⟨1, 1, List.replicate (2 ^ 31) 0⟩] = .error e ∧
      ((∃ p, e = .overflowSizeT p) ∨
        e = .overflowSocklen (sumSpace [⟨1, 1, List.replicate (2 ^ 31) 0⟩])) :=
  (c4_overflow_amended [] [⟨1, 1, List.replicate (2 ^ 31) 0⟩]
    (by
      intro r hr
      rw [List.mem_singleton] at hr
      subst hr
      rw [payload_mk, List.length_replicate]
      norm_num)).2
    ⟨⟨1, 1, List.replicate (2 ^ 31) 0⟩, List.mem_singleton.mpr rfl, by
      rw [payload_mk, List.length_replicate]
      norm_num [CMSG_LEN, CMSG_ALIGN, cmsghdrSize, U64, SOCKLEN_MAX]⟩

/-- C5: the sizing pass accumulates the per-record `CMSG_SPACE` values with
overflow-checked addition: a successful sizing pass returns exactly the
mathematical sum; its only error is the OverflowError naming the partial sum
that was about to overflow; and whenever the accumulated total exceeds
2^31-1, the whole encode deterministically fails with a pre-allocation
OverflowError — for every allocation contents — so no buffer is
allocated. -/
theorem c5_sizing_overflow (init : List Nat) (rs : List AncillaryRecord) :
    (∀ t, sizePass rs 0 = .ok t → t = sumSpace rs) ∧
    (∀ e, sizePass rs 0 = .error e → ∃ p, e = .overflowSizeT p) ∧
    (SOCKLEN_MAX < sumSpace rs →
      ∃ e, encodeControl init rs = .error e ∧
        ((∃ p, e = .overflowSizeT p) ∨ e = .overflowSocklen (sumSpace rs))) := by
  refine ⟨?_, ?_, ?_⟩
  · intro t ht
    have := (@sizePass_ok_eq rs 0 t U64_pos ht).1
    omega
  · intro e he
    exact sizePass_error_shape he
  · intro h
    exact encodeControl_err_of_big h

/-- C5, witness: two records each declaring payload length 0x7FFFFFFF make
the accumulated total 4294967328 exceed the platform maximum, and encode
fails with a pre-allocation OverflowError. -/
theorem c5_sizing_overflow_witness :
    SOCKLEN_MAX < sumSpace [⟨1, 1, List.replicate (2 ^ 31 - 1) 0⟩,
        ⟨1, 1, List.replicate (2 ^ 31 - 1) 0⟩] ∧
      ∃ e, encodeControl [] [⟨1, 1, List.replicate (2 ^ 31 - 1) 0⟩,
          ⟨1, 1, List.replicate (2 ^ 31 - 1) 0⟩] = .error e ∧
        ((∃ p, e = .overflowSizeT p) ∨
          e = .overflowSocklen (sumSpace [⟨1, 1, List.replicate (2 ^ 31 - 1) 0⟩,
            ⟨1, 1, List.replicate (2 ^ 31 - 1) 0⟩])) := by
  have hL : (List.replicate (2 ^ 31 - 1) (0 : Nat)).length = 2 ^ 31 - 1 :=
    List.length_replicate _ _
  have hlt : SOCKLEN_MAX < sumSpace [⟨1, 1, List.replicate (2 ^ 31 - 1) 0⟩,
      ⟨1, 1, List.replicate (2 ^ 31 - 1) 0⟩] := by
    rw [sumSpace_cons, sumSpace_cons, sumSpace_nil, payload_mk, hL]
    norm_num [CMSG_SPACE, CMSG_ALIGN, cmsghdrSize, U64, SOCKLEN_MAX]
  exact ⟨hlt, (c5_sizing_overflow [] _).2.2 hlt⟩

/-- C6: the decoder never emits a record whose level and type are both zero
— for every control buffer, including one assembled by hand rather than by
the encoder — and a raw buffer holding a zero-level/zero-type record
followed by a (1, 2) record decodes to exactly the latter. -/
theorem c6_zero_filter :
    (∀ (buf : List Nat) (L : Nat) (e : DecodedEntry),
      e ∈ decode buf L → ¬(e.level = 0 ∧ e.type = 0)) ∧
    decode (encodeChunks [⟨0, 0, []⟩, ⟨1, 2, [7, 0, 0, 0]⟩]) 40
      = [⟨1, 2, 4, [7, 0, 0, 0]⟩] :=
  ⟨decode_no_zero, by decide⟩

/-- C6, witness: the general zero-filter statement applied to the injected
raw buffer: the emitted (1, 2) record is in the output and is not the
all-zero artifact. -/
theorem c6_zero_filter_witness :
    (⟨1, 2, 4, [7, 0, 0, 0]⟩ : DecodedEntry) ∈
        decode (encodeChunks [⟨0, 0, []⟩, ⟨1, 2, [7, 0, 0, 0]⟩]) 40 ∧
      ¬((1 : Int) = 0 ∧ (2 : Int) = 0) :=
  ⟨by decide,
    c6_zero_filter.1 (encodeChunks [⟨0, 0, []⟩, ⟨1, 2, [7, 0, 0, 0]⟩]) 40
      ⟨1, 2, 4, [7, 0, 0, 0]⟩ (by decide)⟩

/-- C7, counterexample: decode does not continue to every position where a
complete further header fits.  In a 32-byte buffer whose second 16-byte
header (declared length 100, level 2) is entirely inside `received_length`,
the walk still stops after the first record, because `CMSG_NXTHDR` demands
that the whole aligned declared length of the next record fit. -/
theorem c7_truncation_counterexample :
    decode [16, 0, 0, 0, 0, 0, 0, 0, 1, 0, 0, 0, 1, 0, 0, 0,
        100, 0, 0, 0, 0, 0, 0, 0, 2, 0, 0, 0, 2, 0, 0, 0] 32
        = [⟨1, 1, 0, []⟩] ∧
      16 + cmsghdrSize ≤ 32 ∧
      readI32 [16, 0, 0, 0, 0, 0, 0, 0, 1, 0, 0, 0, 1, 0, 0, 0,
        100, 0, 0, 0, 0, 0, 0, 0, 2, 0, 0, 0, 2, 0, 0, 0] 24 = 2 := by
  decide

/-- C7, amended: on an encoded buffer whose first record fits below
`received_length`, decode walks from offset 0, never raises an error, stops
at the first position where no complete record (header plus aligned declared
length) fits — a bare further header is not enough to continue — and
returns, in order, the visited records minus the zero-level/zero-type ones;
the kernel-reported flags value is passed through to the caller unchanged. -/
theorem c7_truncation_amended (payload : List Nat) (msgFlags : Int)
    (r : AncillaryRecord) (rs1 : List AncillaryRecord) (L Z : Nat)
    (hv : ∀ x ∈ r :: rs1, ValidRecord x)
    (hlo : CMSG_SPACE r.payload.length ≤ L) (hhi : L ≤ sumSpace (r :: rs1)) :
    recvmsgDecode payload msgFlags
        (List.take L (encodeChunks (r :: rs1)) ++ List.replicate Z 0) L
      = ⟨payload, msgFlags, emittedUpTo (r :: rs1) L⟩ := by
  unfold recvmsgDecode
  rw [decode_chunks r rs1 L Z hv hlo hhi]

/-- C7, witness: two records truncated at 28 bytes (cutting into the second
record), with the transport flags value 64 passed through unchanged. -/
theorem c7_truncation_amended_witness :
    recvmsgDecode [1] 64
        (List.take 28 (encodeChunks [⟨1, 2, [9]⟩, ⟨3, 4, [1, 2, 3]⟩]) ++
          List.replicate 20 0) 28
      = ⟨[1], 64, emittedUpTo [⟨1, 2, [9]⟩, ⟨3, 4, [1, 2, 3]⟩] 28⟩ :=
  c7_truncation_amended [1] 64 ⟨1, 2, [9]⟩ [⟨3, 4, [1, 2, 3]⟩] 28 20
    (by decide) (by decide) (by decide)

/-- C8: for every allocation contents, encode yields an error value carrying
no buffer (every C error path frees `msg_control` before returning), or the
abort of the line-226 assert (which yields no value at all), or the
complete, correctly-ordered control buffer: the in-order concatenation of
every record's image — stored length, level, type, payload — each padded to
its reserved `CMSG_SPACE` extent by the allocation's untouched padding
bytes, with `msg_controllen` equal to its exact size; never a truncated but
valid-looking intermediate. -/
theorem c8_no_partial (init : List Nat) (rs : List AncillaryRecord)
    (hlen : ∀ r ∈ rs, r.payload.length ≤ 2 ^ 63 - 1) :
    (∃ e, encodeControl init rs = .error e) ∨
      encodeControl init rs = .aborted ∨
      ∃ buf, ChunksWithPads rs buf ∧
        encodeControl init rs
          = .ok ⟨if sumSpace rs = 0 then none else some buf, sumSpace rs⟩ :=
  encodeControl_shape init rs hlen

/-- C8, witness: the trichotomy at a concrete one-record list over the
zero-extended empty allocation, which lands in the complete-buffer
branch. -/
theorem c8_no_partial_witness :
    (∃ e, encodeControl [] [⟨1, 2, [9]⟩] = .error e) ∨
      encodeControl [] [⟨1, 2, [9]⟩] = .aborted ∨
      ∃ buf, ChunksWithPads [⟨1, 2, [9]⟩] buf ∧
        encodeControl [] [⟨1, 2, [9]⟩]
          = .ok ⟨if sumSpace [⟨1, 2, [9]⟩] = 0 then none else some buf,
              sumSpace [⟨1, 2, [9]⟩]⟩ :=
  c8_no_partial [] [⟨1, 2, [9]⟩] (by decide)

/-- C9: the claim fails on the modelled platform — the `assert
(control_message)` at line 226 can fire, so the code contradicts the
comment at lines 224-225.  The cursor arithmetic half of the claim holds
(each stored `CMSG_LEN` is at most its reserved `CMSG_SPACE`, and a
non-null `CMSG_NXTHDR` advances by exactly the reserved extent), but
between two records `CMSG_NXTHDR` also reads the next record's `cmsg_len`
from bytes the fill pass has not yet written and the code never initialises
(no `memset` after the `malloc` at line 199): when the allocation happens
to hold a large value there, `CMSG_NXTHDR` returns null and the assert
fires.  Concretely, two empty records abort when bytes 16..23 of the
32-byte allocation hold `0x0000FFFFFFFFFFFF`, and encode completely when
the allocation is zero-filled. -/
theorem c9_fill_assert_reachable :
    encodeControl
        (List.replicate 16 0 ++ [255, 255, 255, 255, 255, 255, 0, 0] ++
          List.replicate 8 0)
        [⟨1, 1, []⟩, ⟨1, 1, []⟩] = .aborted ∧
      encodeControl (List.replicate 32 0) [⟨1, 1, []⟩, ⟨1, 1, []⟩]
        = .ok ⟨some (encodeChunks [⟨1, 1, []⟩, ⟨1, 1, []⟩]), 32⟩ :=
  ⟨rfl, rfl⟩

/-- C10, counterexample: a first record whose stored length 0 is below the
header size is emitted without error, but not with the wrapped payload
length `2^64 - 16` the claim describes: the wrapped count is negative as a
`Py_ssize_t`, CPython 2's `s#` converter measures the data with `strlen`
instead, and the emitted payload is the NUL-terminated prefix `[65, 66]` of
the bytes behind the header, with length 2. -/
theorem c10_wrapped_paylen_counterexample :
    decode [0, 0, 0, 0, 0, 0, 0, 0, 1, 0, 0, 0, 1, 0, 0, 0,
        65, 66, 0, 67, 0, 0, 0, 0] 24
      = [⟨1, 1, 2, [65, 66]⟩] :=
  rfl

/-- C10, amended: a decoded record's `s#` count is the unchecked unsigned
64-bit difference `cmsg_len - sizeof (struct cmsghdr)`, with no check that
the stored length is at least the header size; a first record whose stored
length is smaller than the header size is still emitted — no error — but
the wrapped count, being at least `2 ^ 63`, is negative once cast to
`Py_ssize_t`, and CPython 2's `s#` converter then substitutes `strlen`: the
record carries the NUL-terminated prefix of the bytes behind the header,
not a `2^64 - 16`-byte payload. -/
theorem c10_wrapped_paylen (buf : List Nat) (L : Nat)
    (h16 : cmsghdrSize ≤ L) (hsmall : readU64 buf 0 < cmsghdrSize)
    (hnz : ¬(readI32 buf 8 = 0 ∧ readI32 buf 12 = 0)) :
    decode buf L
        = [⟨readI32 buf 8, readI32 buf 12,
            ((buf.drop cmsghdrSize).takeWhile (fun b => b % 256 != 0)).length,
            (buf.drop cmsghdrSize).takeWhile (fun b => b % 256 != 0)⟩] ∧
      2 ^ 63 ≤ (readU64 buf 0 + (U64 - cmsghdrSize)) % U64 := by
  have hc16 : cmsghdrSize = 16 := rfl
  have hv64 := readU64_lt buf 0
  have hmod : (readU64 buf 0 + (U64 - cmsghdrSize)) % U64
      = readU64 buf 0 + (U64 - cmsghdrSize) := by
    apply Nat.mod_eq_of_lt
    simp only [U64, hc16] at hsmall ⊢
    omega
  constructor
  · unfold decode
    rw [show CMSG_FIRSTHDR L = some 0 from by unfold CMSG_FIRSTHDR; rw [if_pos h16]]
    show decodeFrom buf L 0 (L + 1) = _
    simp only [decodeFrom]
    have hnx : CMSG_NXTHDR buf L 0 = none := by
      unfold CMSG_NXTHDR
      rw [if_pos hsmall]
    simp only [hnx]
    simp only [decodeEntryAt, Nat.zero_add]
    rw [if_neg hnz, if_neg (show ¬ (readU64 buf 0 + (U64 - cmsghdrSize)) % U64 < 2 ^ 63 from by
      rw [hmod]
      simp only [U64, hc16] at hsmall ⊢
      omega)]
  · rw [hmod]
    simp only [U64, hc16] at hsmall ⊢
    omega

/-- C10, witness: the amended statement at the raw buffer whose first record
stores length 0 and carries the bytes `65, 66, 0, 67` behind its header:
the emitted payload is the NUL-terminated prefix `[65, 66]`. -/
theorem c10_wrapped_paylen_witness :
    decode [0, 0, 0, 0, 0, 0, 0, 0, 1, 0, 0, 0, 1, 0, 0, 0,
        65, 66, 0, 67, 0, 0, 0, 0] 24
        = [⟨readI32 [0, 0, 0, 0, 0, 0, 0, 0, 1, 0, 0, 0, 1, 0, 0, 0,
              65, 66, 0, 67, 0, 0, 0, 0] 8,
            readI32 [0, 0, 0, 0, 0, 0, 0, 0, 1, 0, 0, 0, 1, 0, 0, 0,
              65, 66, 0, 67, 0, 0, 0, 0] 12,
            ((([0, 0, 0, 0, 0, 0, 0, 0, 1, 0, 0, 0, 1, 0, 0, 0,
              65, 66, 0, 67, 0, 0, 0, 0] : List Nat).drop
              cmsghdrSize).takeWhile (fun b => b % 256 != 0)).length,
            (([0, 0, 0, 0, 0, 0, 0, 0, 1, 0, 0, 0, 1, 0, 0, 0,
              65, 66, 0, 67, 0, 0, 0, 0] : List Nat).drop
              cmsghdrSize).takeWhile (fun b => b % 256 != 0)⟩] ∧
      2 ^ 63 ≤ (readU64 [0, 0, 0, 0, 0, 0, 0, 0, 1, 0, 0, 0, 1, 0, 0, 0,
          65, 66, 0, 67, 0, 0, 0, 0] 0 + (U64 - cmsghdrSize)) % U64 :=
  c10_wrapped_paylen [0, 0, 0, 0, 0, 0, 0, 0, 1, 0, 0, 0, 1, 0, 0, 0,
    65, 66, 0, 67, 0, 0, 0, 0] 24 (by decide) (by decide) (by decide)

end Sendmsg
